import Mathlib

/-!
Verification development for the Codeur.com RSS surveillance bot
(`rss_parser.py`, `state_manager.py`, `discord_notifier.py`, `main.py`).

The Python sources are shallowly embedded below: pure text processing is
translated to functions on `List Char`, the stateful `StateManager` becomes
explicit state passing over a `StateManager` structure, filesystem effects in
`save_state` / `reset_state` become explicit `FS` values plus success flags
for the fallible steps, and exceptions become `Except` / `Option` results.
-/

/-! ## Python text primitives

`re`'s `\s` for `str` patterns, `str.strip()` and `int()` all use Python's
notion of whitespace; this is the full Unicode whitespace set used by CPython
(`Py_UNICODE_ISSPACE`): 0x09-0x0D, 0x1C-0x1F, space, NEL, NBSP, and the
Unicode space separators. -/

def isPyWs (c : Char) : Bool :=
  (9 ≤ c.toNat && c.toNat ≤ 13) || (28 ≤ c.toNat && c.toNat ≤ 31) ||
  c.toNat = 32 || c.toNat = 133 || c.toNat = 160 || c.toNat = 5760 ||
  (8192 ≤ c.toNat && c.toNat ≤ 8202) || c.toNat = 8232 || c.toNat = 8233 ||
  c.toNat = 8239 || c.toNat = 8287 || c.toNat = 12288

/-- Right-trim of Python `str.strip()`: drop trailing whitespace. -/
def trimRight : List Char → List Char
  | [] => []
  | c :: rest =>
    match trimRight rest with
    | [] => if isPyWs c then [] else [c]
    | r => c :: r

/-- Python `str.strip()`: drop leading and trailing whitespace. -/
def pyTrim (l : List Char) : List Char :=
  trimRight (l.dropWhile isPyWs)

/-- One pass of `re.sub(r"\s+", " ", s)`: every maximal whitespace run is
replaced by a single space.  `inRun` records whether the previous character
belonged to a whitespace run (for which a space was already emitted). -/
def collapseGo (inRun : Bool) : List Char → List Char
  | [] => []
  | c :: rest =>
    if isPyWs c then
      if inRun then collapseGo true rest else ' ' :: collapseGo true rest
    else c :: collapseGo false rest

/-- Python `s.split(',')` (plain string split, not regex). -/
def splitComma : List Char → List (List Char)
  | [] => [[]]
  | c :: rest =>
    if c = ',' then [] :: splitComma rest
    else
      match splitComma rest with
      | [] => [[c]]
      | g :: gs => (c :: g) :: gs

/-- Literal fragment of a regex: consume `lit` exactly, return the rest. -/
def stripLit (lit : List Char) (s : List Char) : Option (List Char) :=
  if lit.isPrefixOf s then some (s.drop lit.length) else none

/-- The regex fragment `\s*:`.  `\s*` is greedy, but since `:` is not
whitespace backtracking can never help: the fragment matches exactly when,
after the maximal whitespace run, a `:` follows. -/
def expectColon (s : List Char) : Option (List Char) :=
  match s.dropWhile isPyWs with
  | ':' :: rest => some rest
  | _ => none

/-! ## `RSSParser._extract_budget_and_categories`

The source regex is
`Budget\s*:\s*([^-]+)\s*-\s*Catégories\s*:\s*(.+?)(?:\s*[A-ZÀÁÂÃÄÅÆÇÈÉÊË]|\s*$)`
applied with `re.search` (leftmost match).  It is compiled here into a
deterministic scanner:

* `\s*([^-]+)\s*-`: `[^-]` also matches whitespace, so however the engine
  splits the text between the two `\s*` and the group, the match succeeds
  exactly when some character precedes the first `-`, group 1 being a
  (whitespace-padded) slice whose `strip()` equals the stripped text before
  the first `-`.  `breakAtDash` returns that text.
* `(.+?)` is lazy and `.` does not match a newline: the group grows one
  character at a time until the boundary alternation matches.
* the boundary `(?:\s*[A-ZÀÁÂÃÄÅÆÇÈÉÊË]|\s*$)`: the class contains no
  whitespace, so the first alternative holds exactly when the first
  non-whitespace character exists and lies in the class; `\s*$` (with `$`
  matching at the end or before a terminal newline) holds exactly when the
  remaining text is all whitespace. -/

def isUpperBdy (c : Char) : Bool :=
  ('A' ≤ c && c ≤ 'Z') || (192 ≤ c.toNat && c.toNat ≤ 203)

/-- Split at the first `-`: returns (text before it, text after it). -/
def breakAtDash : List Char → Option (List Char × List Char)
  | [] => none
  | c :: rest =>
    if c = '-' then some ([], rest)
    else (fun p => (c :: p.1, p.2)) <$> breakAtDash rest

/-- Boundary `(?:\s*[A-ZÀÁÂÃÄÅÆÇÈÉÊË]|\s*$)` as a test on the rest. -/
def catBoundary (r : List Char) : Bool :=
  (match r.dropWhile isPyWs with
   | c :: _ => isUpperBdy c
   | [] => false) || r.all isPyWs

/-- Lazy `(.+?)` up to `catBoundary`: the shortest non-empty newline-free
prefix whose remainder satisfies the boundary. -/
def scanCats : List Char → Option (List Char)
  | [] => none
  | c :: rest =>
    if c = '\n' then none
    else if catBoundary rest then some [c]
    else (fun g => c :: g) <$> scanCats rest

/-- The fragment `\s*(.+?)(?:…)` after the second colon.  The greedy `\s*`
first takes the maximal whitespace run, but when no boundary is reachable
from there the engine backtracks and yields whitespace characters to the
lazy group (`.` matches every whitespace character except a newline), so
each split point is tried from the deepest one outwards: skip the
whitespace run one character at a time, preferring the scan that starts
after it, and fall back to scans that start inside it. -/
def scanCatsWs : List Char → Option (List Char)
  | [] => none
  | c :: rest =>
    if isPyWs c then scanCatsWs rest <|> scanCats (c :: rest)
    else scanCats (c :: rest)

/-- Attempt the budget/categories regex at the start of `s`; on success
return the two raw capture groups. -/
def matchBudgetCats (s : List Char) : Option (List Char × List Char) := do
  let s1 ← stripLit "Budget".data s
  let s2 ← expectColon s1
  let (bud, s3) ← breakAtDash s2
  if bud = [] then none else
  let s4 := s3.dropWhile isPyWs
  let s5 ← stripLit "Catégories".data s4
  let s6 ← expectColon s5
  let cats ← scanCatsWs s6
  pure (bud, cats)

/-- `re.search`: try the pattern at each position, leftmost first. -/
def searchBC : List Char → Option (List Char × List Char)
  | [] => none
  | c :: rest => matchBudgetCats (c :: rest) <|> searchBC rest

/-- `RSSParser._extract_budget_and_categories`: on a match, budget is
group 1 stripped and categories are group 2 stripped then split on commas
with each element stripped; otherwise the fallback. -/
def extract_budget_and_categories (description : String) : String × List String :=
  match searchBC description.data with
  | none => ("Non spécifié", [])
  | some (bud, cats) =>
    (String.mk (pyTrim bud),
     (splitComma (pyTrim cats)).map (fun g => String.mk (pyTrim g)))

/-! ## `RSSParser._extract_main_content`

Two `re.sub` passes followed by whitespace collapsing:

* `re.sub(r"Budget\s*:.*?Catégories\s*:.*?\n?", "", d)`: a match starts with
  the literal `Budget` then `\s*:`, then the lazy `.*?` (which cannot cross a
  newline) grows until `Catégories\s*:` matches; the final `.*?` is lazy with
  nothing after it except the optional `\n?`, so it matches the empty string
  and the match ends right after the colon, plus one immediately following
  newline if present.
* `re.sub(r"Voir ce projet sur Codeur.*$", "", c, flags=re.MULTILINE)`: from
  each occurrence of the literal, `.*` greedily reaches the end of the line
  and `$` matches there, so the match extends to just before the next newline
  (or the end of the text).
* `re.sub(r"\s+", " ", c).strip()`.

`re.sub` scans left to right, replacing each match and resuming after it;
both patterns consume at least one character, so a fuel argument bounded by
the length of the text makes the scan structurally terminating. -/

/-- Lazy `.*?` up to `Catégories\s*:`: walk forward (never across a newline)
until the literal plus `\s*:` matches, returning the rest after the colon. -/
def scanToCat : List Char → Option (List Char)
  | [] => none
  | c :: rest =>
    (do
      let s1 ← stripLit "Catégories".data (c :: rest)
      expectColon s1) <|>
    (if c = '\n' then none else scanToCat rest)

/-- One match attempt of the first sub's pattern; returns the rest of the
text after the whole match. -/
def matchPat1 (s : List Char) : Option (List Char) := do
  let s1 ← stripLit "Budget".data s
  let s2 ← expectColon s1
  let s3 ← scanToCat s2
  pure (match s3 with
        | '\n' :: r => r
        | r => r)

/-- One match attempt of `Voir ce projet sur Codeur.*$` (MULTILINE); the
match ends just before the next newline, which is not consumed. -/
def matchVoir (s : List Char) : Option (List Char) := do
  let s1 ← stripLit "Voir ce projet sur Codeur".data s
  pure (s1.dropWhile (fun c => c ≠ '\n'))

/-- `re.sub(pattern, "", s)` for a pattern given by a single-attempt matcher
that consumes at least one character on success. -/
def subAll (m : List Char → Option (List Char)) : Nat → List Char → List Char
  | _, [] => []
  | 0, s => s
  | fuel + 1, c :: rest =>
    match m (c :: rest) with
    | some r => subAll m fuel r
    | none => c :: subAll m fuel rest

/-- First-match search for a sub pattern (used to state non-occurrence:
`searchM m s = none` says the pattern matches at no position of `s`). -/
def searchM (m : List Char → Option (List Char)) : List Char → Option (List Char)
  | [] => none
  | c :: rest => m (c :: rest) <|> searchM m rest

/-- `RSSParser._extract_main_content`. -/
def extract_main_content (description : String) : String :=
  let c1 := subAll matchPat1 description.data.length description.data
  let c2 := subAll matchVoir c1.length c1
  String.mk (pyTrim (collapseGo false c2))

/-- Whitespace normalisation alone: `re.sub(r"\s+", " ", s).strip()`. -/
def normalizeWs (s : String) : String :=
  String.mk (pyTrim (collapseGo false s.data))

/-! ## Python `int()` and `datetime.fromisoformat`

`StateManager._cleanup_old_missions` parses each record's `seen_at` with
`datetime.fromisoformat`.  The accepted format is the documented inverse of
`datetime.isoformat()`:
`YYYY-MM-DD[*HH[:MM[:SS[.fff[fff]]]][+HH:MM[:SS[.ffffff]]]]`,
with the component slices converted by `int()` and validated by the
`datetime` constructor.  `int()` on a string allows surrounding whitespace,
an optional sign and underscores between (ASCII) digits. -/

def isDigit (c : Char) : Bool := '0' ≤ c && c ≤ '9'

def digitVal (c : Char) : Nat := c.toNat - 48

def pyIntDigits : List Char → Option Nat
  | [] => none
  | c :: rest =>
    if isDigit c then pyIntDigitsGo (digitVal c) rest else none
where
  pyIntDigitsGo (acc : Nat) : List Char → Option Nat
    | [] => some acc
    | '_' :: c :: rest =>
      if isDigit c then pyIntDigitsGo (acc * 10 + digitVal c) rest else none
    | c :: rest =>
      if isDigit c then pyIntDigitsGo (acc * 10 + digitVal c) rest else none

/-- Python `int(s)` for a decimal string. -/
def pyInt (l : List Char) : Option Int :=
  match pyTrim l with
  | '+' :: r => (Int.ofNat) <$> pyIntDigits r
  | '-' :: r => (fun n => -(n : Int)) <$> pyIntDigits r
  | r => Int.ofNat <$> pyIntDigits r

/-- `datetime._parse_isoformat_date` on `dtstr[:10]`: fixed slices
`[0:4] - [5:7] - [8:10]` converted by `int()`; range validation happens
later in the `datetime` constructor. -/
def parse_isoformat_date (l : List Char) : Option (Int × Int × Int) := do
  let y ← pyInt (l.take 4)
  let _ ← if (l.drop 4).take 1 = ['-'] then some () else none
  let mo ← pyInt ((l.drop 5).take 2)
  let _ ← if (l.drop 7).take 1 = ['-'] then some () else none
  let d ← pyInt ((l.drop 8).take 2)
  pure (y, mo, d)

/-- `datetime._parse_hh_mm_ss_ff`: `HH[:MM[:SS[.fff[fff]]]]` with 2-digit
slices via `int()` and a fraction of exactly 3 or 6 characters. -/
def parse_hh_mm_ss_ff (t : List Char) : Option (Int × Int × Int × Int) := do
  let _ ← if t.length < 2 then none else some ()
  let h ← pyInt (t.take 2)
  match t.drop 2 with
  | [] => pure (h, 0, 0, 0)
  | ':' :: r2 => do
    let _ ← if r2.length < 2 then none else some ()
    let m ← pyInt (r2.take 2)
    match r2.drop 2 with
    | [] => pure (h, m, 0, 0)
    | ':' :: r4 => do
      let _ ← if r4.length < 2 then none else some ()
      let s ← pyInt (r4.take 2)
      match r4.drop 2 with
      | [] => pure (h, m, s, 0)
      | '.' :: fr =>
        if fr.length = 3 then do
          let u ← pyInt fr; pure (h, m, s, u * 1000)
        else if fr.length = 6 then do
          let u ← pyInt fr; pure (h, m, s, u)
        else none
      | _ => none
    | _ => none
  | _ => none

/-- Index of the first occurrence of `c` (Python `str.find`). -/
def findChar (c : Char) : List Char → Option Nat
  | [] => none
  | x :: rest =>
    if x = c then some 0 else (· + 1) <$> findChar c rest

/-- The timezone split of `_parse_isoformat_time`:
`tz_pos = (tstr.find('-') + 1 or tstr.find('+') + 1)`. -/
def tzSplit (t : List Char) : Option (List Char × Bool × List Char) :=
  match findChar '-' t with
  | some i => some (t.take i, false, t.drop (i + 1))
  | none =>
    match findChar '+' t with
    | some i => some (t.take i, true, t.drop (i + 1))
    | none => none

/-- `datetime._parse_isoformat_time`; the `Bool` is whether the result is
timezone-aware (any well-formed offset suffix, including `+00:00`).
`timezone()` requires the offset to be strictly between -24 and +24 hours. -/
def parse_isoformat_time (t : List Char) : Option (Int × Int × Int × Int × Bool) := do
  let _ ← if t.length < 2 then none else some ()
  match tzSplit t with
  | none => do
    let (h, m, s, u) ← parse_hh_mm_ss_ff t
    pure (h, m, s, u, false)
  | some (timestr, pos, tzstr) => do
    let (h, m, s, u) ← parse_hh_mm_ss_ff timestr
    let _ ← if tzstr.length = 5 ∨ tzstr.length = 8 ∨ tzstr.length = 15 then some () else none
    let (th, tm, ts, tu) ← parse_hh_mm_ss_ff tzstr
    if th = 0 ∧ tm = 0 ∧ ts = 0 ∧ tu = 0 then pure (h, m, s, u, true)
    else
      let mag : Int := (th * 3600 + tm * 60 + ts) * 1000000 + tu
      let off : Int := if pos then mag else -mag
      if -86400000000 < off ∧ off < 86400000000 then pure (h, m, s, u, true)
      else none

/-- Naive `datetime` value (the fields `datetime` compares on). -/
structure PyDateTime where
  year : Nat
  month : Nat
  day : Nat
  hour : Nat
  minute : Nat
  second : Nat
  usec : Nat
  deriving Repr, DecidableEq

def isLeap (y : Int) : Bool := y % 4 = 0 && (y % 100 ≠ 0 || y % 400 = 0)

def daysInMonth (y m : Int) : Int :=
  if m = 2 then (if isLeap y then 29 else 28)
  else if m = 4 ∨ m = 6 ∨ m = 9 ∨ m = 11 then 30
  else 31

/-- `datetime.fromisoformat` (the documented `datetime.isoformat()` inverse
format, which is what CPython < 3.11 accepts; 3.11+ additionally accepts a
larger ISO-8601 grammar, but every string this program itself writes —
`datetime.now().isoformat()` — lies in the common core modelled here).
Returns the naive field tuple and whether the value carries a `tzinfo`
(is aware).  `none` models `ValueError` — from malformed slices or from the
`datetime` constructor's range checks.  Non-ASCII decimal digits, accepted
by `int()`, are not modelled. -/
def fromisoformat (str : String) : Option (PyDateTime × Bool) := do
  let l := str.data
  let (y, mo, d) ← parse_isoformat_date (l.take 10)
  let tstr := l.drop 11
  let (h, mi, s, u, aware) ←
    if tstr = [] then pure ((0 : Int), (0 : Int), (0 : Int), (0 : Int), false)
    else parse_isoformat_time tstr
  if 1 ≤ y ∧ y ≤ 9999 ∧ 1 ≤ mo ∧ mo ≤ 12 ∧ 1 ≤ d ∧ d ≤ daysInMonth y mo ∧
     0 ≤ h ∧ h ≤ 23 ∧ 0 ≤ mi ∧ mi ≤ 59 ∧ 0 ≤ s ∧ s ≤ 59 ∧ 0 ≤ u ∧ u ≤ 999999 then
    pure (⟨y.toNat, mo.toNat, d.toNat, h.toNat, mi.toNat, s.toNat, u.toNat⟩, aware)
  else none

/-- Chronological `<` on naive datetimes: `datetime` compares field tuples
lexicographically. -/
def dtLt (a b : PyDateTime) : Bool :=
  if a.year ≠ b.year then a.year < b.year
  else if a.month ≠ b.month then a.month < b.month
  else if a.day ≠ b.day then a.day < b.day
  else if a.hour ≠ b.hour then a.hour < b.hour
  else if a.minute ≠ b.minute then a.minute < b.minute
  else if a.second ≠ b.second then a.second < b.second
  else a.usec < b.usec

/-- Civil date to day count (days since 1970-01-01, proleptic Gregorian). -/
def daysFromCivil (y m d : Int) : Int :=
  let y2 := if m ≤ 2 then y - 1 else y
  let era := (if 0 ≤ y2 then y2 else y2 - 399) / 400
  let yoe := y2 - era * 400
  let mp := (m + 9) % 12
  let doy := (153 * mp + 2) / 5 + d - 1
  let doe := yoe * 365 + yoe / 4 - yoe / 100 + doy
  era * 146097 + doe - 719468

/-- Day count back to a civil date. -/
def civilFromDays (z0 : Int) : Int × Int × Int :=
  let z := z0 + 719468
  let era := (if 0 ≤ z then z else z - 146096) / 146097
  let doe := z - era * 146097
  let yoe := (doe - doe / 1460 + doe / 36524 - doe / 146096) / 365
  let y := yoe + era * 400
  let doy := doe - (365 * yoe + yoe / 4 - yoe / 100)
  let mp := (5 * doy + 2) / 153
  let d := doy - (153 * mp + 2) / 5 + 1
  let m := mp + (if mp < 10 then 3 else -9)
  (y + (if m ≤ 2 then 1 else 0), m, d)

/-- `dt - timedelta(days=n)`: shift the date part, keep the time part. -/
def subDays (dt : PyDateTime) (n : Nat) : PyDateTime :=
  let c := civilFromDays (daysFromCivil dt.year dt.month dt.day - n)
  ⟨c.1.toNat, c.2.1.toNat, c.2.2.toNat, dt.hour, dt.minute, dt.second, dt.usec⟩

/-! ## `StateManager`

`seen_missions` is a Python `set` (modelled as a duplicate-free list queried
by membership), `missions_data` a `dict` (modelled as an insertion-ordered
association list).  Records loaded from JSON may lack fields, so every
record field is optional; `mark_mission_seen` always fills all of them. -/

structure MissionData where
  title : Option String
  pub_date : Option String
  feed_name : Option String
  seen_at : Option String
  deriving Repr, DecidableEq

structure Mission where
  id : String
  title : String
  pub_date : String
  feed_name : String
  deriving Repr, DecidableEq

structure StateManager where
  seen_missions : List String
  missions_data : List (String × MissionData)
  deriving Repr, DecidableEq

/-- `set.add`. -/
def setAdd (s : List String) (x : String) : List String :=
  if x ∈ s then s else s ++ [x]

/-- `set.discard`. -/
def setDiscard (s : List String) (x : String) : List String :=
  s.filter (fun y => y ≠ x)

/-- `dict[k] = v`: overwrite the entry in place if the key is present
(Python dicts hold each key once, so updating the first match is the dict
semantics), or append a new key at the end. -/
def dictInsert : List (String × MissionData) → String → MissionData →
    List (String × MissionData)
  | [], k, v => [(k, v)]
  | (a, b) :: rest, k, v =>
    if a = k then (k, v) :: rest else (a, b) :: dictInsert rest k v

/-- `dict.pop(k, None)`. -/
def dictPop (d : List (String × MissionData)) (k : String) :
    List (String × MissionData) :=
  d.filter (fun p => p.1 ≠ k)

/-- `set(list)`: deduplicate, keeping one copy of each member. -/
def dedupKeep (l : List String) : List String := l.foldl setAdd []

/-- `StateManager.load_state`: `none` is a missing or unparseable file
(both fall back to empty state); otherwise the file's `seen_missions` list
and `missions_data` mapping are taken as they are, with no reconciliation
between the two. -/
def load_state (file : Option (List String × List (String × MissionData))) :
    StateManager :=
  match file with
  | none => ⟨[], []⟩
  | some (seen, data) => ⟨dedupKeep seen, data⟩

/-- `StateManager.is_mission_seen`. -/
def is_mission_seen (st : StateManager) (mission_id : String) : Bool :=
  mission_id ∈ st.seen_missions

/-- `StateManager.mark_mission_seen`; `nowStr` is
`datetime.now().isoformat()`. -/
def mark_mission_seen (st : StateManager) (m : Mission) (nowStr : String) :
    StateManager :=
  { seen_missions := setAdd st.seen_missions m.id,
    missions_data := dictInsert st.missions_data m.id
      ⟨some m.title, some m.pub_date, some m.feed_name, some nowStr⟩ }

/-- `StateManager.get_new_missions`. -/
def get_new_missions (st : StateManager) (missions : List Mission) : List Mission :=
  missions.filter (fun m => ! is_mission_seen st m.id)

/-- The string actually parsed for a record:
`mission_data.get('seen_at', '1970-01-01')`. -/
def effSeenAt (md : MissionData) : String := md.seen_at.getD "1970-01-01"

/-- The loop of `_cleanup_old_missions` collecting ids to remove.
An unparseable `seen_at` (`ValueError`) is skipped by `except ValueError`;
a parse to an *aware* datetime makes `seen_at < cutoff_date` raise
`TypeError` (aware vs naive), which that handler does not catch, aborting
the whole cleanup before anything is removed. -/
def collectToRemove (cutoff : PyDateTime) :
    List (String × MissionData) → Except Unit (List String)
  | [] => .ok []
  | (id, md) :: rest =>
    match fromisoformat (effSeenAt md) with
    | none => collectToRemove cutoff rest
    | some (_, true) => .error ()
    | some (dt, false) =>
      if dtLt dt cutoff then (fun l => id :: l) <$> collectToRemove cutoff rest
      else collectToRemove cutoff rest

/-- `StateManager._cleanup_old_missions(days_to_keep)`:
`cutoff_date = datetime.now() - timedelta(days=days_to_keep)`; the collected
ids are then discarded from the set and popped from the map.  `.error`
models the uncaught `TypeError`, which leaves the state unmodified. -/
def cleanup_old_missions (st : StateManager) (now : PyDateTime)
    (days_to_keep : Nat := 30) : Except Unit StateManager :=
  let cutoff := subDays now days_to_keep
  (collectToRemove cutoff st.missions_data).map fun ids =>
    { seen_missions := ids.foldl setDiscard st.seen_missions,
      missions_data := ids.foldl dictPop st.missions_data }

/-- The data written by `save_state`. -/
structure Snapshot where
  seen_missions : List String
  missions_data : List (String × MissionData)
  last_update : String
  deriving Repr, DecidableEq

/-- The on-disk files `save_state` touches: the data file and the `.tmp`
file next to it. -/
structure FS where
  main : Option Snapshot
  tmp : Option Snapshot
  deriving Repr, DecidableEq

/-- `StateManager.save_state`: prune, serialize to `<file>.tmp`, rename the
temp file over the target.  `writeOk` / `renameOk` inject failures of the
two filesystem steps; any failure (including the `TypeError` escaping from
the cleanup) is caught, the temp file is removed, and `False` is returned.
Returns (result, in-memory state after the call, filesystem after the
call). -/
def save_state (st : StateManager) (now : PyDateTime) (nowStr : String)
    (fs : FS) (writeOk renameOk : Bool) : Bool × StateManager × FS :=
  match cleanup_old_missions st now 30 with
  | .error _ => (false, st, { fs with tmp := none })
  | .ok st2 =>
    if writeOk then
      let snap : Snapshot := ⟨st2.seen_missions, st2.missions_data, nowStr⟩
      if renameOk then (true, st2, ⟨some snap, none⟩)
      else (false, st2, { fs with tmp := none })
    else (false, st2, { fs with tmp := none })

/-- `StateManager.reset_state`: clear both collections, then delete the
backing file if it exists (`removeOk` injects a deletion failure, whose
exception is caught after the collections were already cleared). -/
def reset_state (_st : StateManager) (fs : FS) (removeOk : Bool) :
    Bool × StateManager × FS :=
  match fs.main with
  | some _ =>
    if removeOk then (true, ⟨[], []⟩, { fs with main := none })
    else (false, ⟨[], []⟩, fs)
  | none => (true, ⟨[], []⟩, fs)

/-! ## `StateManager.get_statistics`

`sorted(self.missions_data.values(), key=lambda x: x.get('seen_at', '1970-01-01'))`
sorts the records (in dict insertion order) stably by the raw `seen_at`
string under Python's code-point-lexicographic `<`.  `strLeL` is that order;
`sortOn` is a stable insertion sort, which agrees with any stable sort
(such as CPython's) for a total preorder. -/

/-- Python string `<=`: lexicographic on code points. -/
def strLeL : List Char → List Char → Bool
  | [], _ => true
  | _ :: _, [] => false
  | a :: as, b :: bs =>
    if a.toNat < b.toNat then true
    else if b.toNat < a.toNat then false
    else strLeL as bs

/-- Stable insertion: place `x` before the first element `y` with
`le x y` (so after every earlier element with an equal or smaller key). -/
def insSorted (le : α → α → Bool) (x : α) : List α → List α
  | [] => [x]
  | y :: ys => if le x y then x :: y :: ys else y :: insSorted le x ys

/-- Stable insertion sort. -/
def sortOn (le : α → α → Bool) : List α → List α
  | [] => []
  | x :: xs => insSorted le x (sortOn le xs)

/-- Sort key of `get_statistics`: `x.get('seen_at', '1970-01-01')`. -/
def statKey (md : MissionData) : List Char := (effSeenAt md).data

def statLe (a b : MissionData) : Bool := strLeL (statKey a) (statKey b)

/-- `missions_by_feed[feed] = missions_by_feed.get(feed, 0) + 1` (each key
occurs at most once in a Python dict, so bumping the first match is the
dict semantics; a fresh key is appended at the end). -/
def bumpFeed : List (String × Nat) → String → List (String × Nat)
  | [], k => [(k, 1)]
  | (a, n) :: rest, k =>
    if a = k then (a, n + 1) :: rest else (a, n) :: bumpFeed rest k

/-- Total count stored for a feed name in the per-feed mapping (0 when the
feed does not occur). -/
def feedCount (d : List (String × Nat)) (f : String) : Nat :=
  ((d.filter (fun p => p.1 = f)).map Prod.snd).sum

structure Stats where
  total_missions_seen : Nat
  missions_by_feed : List (String × Nat)
  oldest_mission : Option String
  newest_mission : Option String
  deriving Repr, DecidableEq

/-- `StateManager.get_statistics`. -/
def get_statistics (st : StateManager) : Stats :=
  let by_feed := st.missions_data.foldl
    (fun d p => bumpFeed d (p.2.feed_name.getD "Unknown")) []
  let vals := st.missions_data.map Prod.snd
  match sortOn statLe vals with
  | [] => ⟨st.seen_missions.length, by_feed, none, none⟩
  | first :: rest =>
    ⟨st.seen_missions.length, by_feed, first.title,
     (rest.getLastD first).title⟩

/-- The sort key the specification prescribes instead: parse `observedAt`
and let a missing or unparseable value sort as the epoch start.
Modelled from the spec: "oldest/newest determined by sorting records on
`observedAt` ascending (missing/unparseable observedAt sorts as
epoch-start)". -/
def specStatKey (md : MissionData) : PyDateTime :=
  match md.seen_at with
  | none => ⟨1970, 1, 1, 0, 0, 0, 0⟩
  | some s =>
    match fromisoformat s with
    | some (dt, _) => dt
    | none => ⟨1970, 1, 1, 0, 0, 0, 0⟩

def specStatLe (a b : MissionData) : Bool :=
  dtLt (specStatKey a) (specStatKey b) || specStatKey a = specStatKey b

/-- The spec's oldest-record title: first title after sorting by the
parsed-`observedAt` key. -/
def specOldestTitle (st : StateManager) : Option String :=
  match sortOn specStatLe (st.missions_data.map Prod.snd) with
  | [] => none
  | first :: _ => first.title

/-! ## The lockstep invariant (spec §3, claim C7) -/

/-- The seen-identifier set and the record map hold exactly the same
identifiers: each seen id has exactly one record, each record key is seen. -/
def StateOK (st : StateManager) : Prop :=
  st.seen_missions.Nodup ∧ (st.missions_data.map Prod.fst).Nodup ∧
  ∀ id, id ∈ st.seen_missions ↔ id ∈ st.missions_data.map Prod.fst

/-! ## `DiscordNotifier.send_multiple_missions`

`for i in range(0, len(missions), 10): batch = missions[i:i+10]` slices the
list into chunks of ten; each batch is posted once and, on success,
`success_count += len(batch)`.  Failures of individual posts are injected
through `ok : Nat → Bool`, indexed by batch number. -/

def chunksGo : Nat → List α → List (List α)
  | _, [] => []
  | 0, l => [l]
  | fuel + 1, l => l.take 10 :: chunksGo fuel (l.drop 10)

/-- The batches `missions[0:10], missions[10:20], ...`. -/
def chunksOf10 (l : List α) : List (List α) := chunksGo l.length l

/-- The chunk sizes as a function of the input length alone. -/
def lenChunksGo : Nat → Nat → List Nat
  | _, 0 => []
  | 0, n => [n]
  | fuel + 1, n => min 10 n :: lenChunksGo fuel (n - 10)

def sendGo (ok : Nat → Bool) : Nat → Nat → List (List Mission) → Nat
  | _, acc, [] => acc
  | i, acc, b :: bs => sendGo ok (i + 1) (if ok i then acc + b.length else acc) bs

/-- `DiscordNotifier.send_multiple_missions`: returns the number of
missions in the batches whose delivery call succeeded. -/
def send_multiple_missions (ok : Nat → Bool) (missions : List Mission) : Nat :=
  if missions = [] then 0
  else sendGo ok 0 0 (chunksOf10 missions)

/-! ## Concrete fixtures -/

/-- The sample description of spec §8. -/
def sampleDescr : String :=
  "Budget : Moins de 500 € - Catégories : Développement spécifique, API Voir ce projet sur Codeur"

/-- A store holding one record whose `seen_at` parses to an *aware*
datetime (it carries a `+00:00` offset). -/
def awareStore : StateManager :=
  ⟨["a"], [("a", ⟨some "t", some "p", some "f", some "2000-01-01T00:00:00+00:00"⟩)]⟩

/-- A fixed "now" for the concrete prune evaluations. -/
def nowJun2024 : PyDateTime := ⟨2024, 6, 1, 0, 0, 0, 0⟩

/-- A concrete batch of 23 distinct missions. -/
def batch23 : List Mission := (List.range 23).map (fun i => ⟨toString i, "", "", ""⟩)

/-- A record's effective `seen_at` parses to an offset-aware datetime —
the case in which `seen_at < cutoff_date` raises `TypeError`. -/
def isAwareRec (md : MissionData) : Bool :=
  match fromisoformat (effSeenAt md) with
  | some (_, true) => true
  | _ => false

/-- The pruning condition of `_cleanup_old_missions` for one record: the
effective `seen_at` parses to a naive datetime strictly before the cutoff. -/
def isOldRec (cutoff : PyDateTime) (md : MissionData) : Bool :=
  match fromisoformat (effSeenAt md) with
  | some (dt, false) => dtLt dt cutoff
  | _ => false

/-- A store pairing a record with no `seen_at` at all with a record whose
`seen_at` carries a UTC offset. -/
def mixedStore : StateManager :=
  ⟨["x", "p"],
   [("x", ⟨some "X", none, none, none⟩),
    ("p", ⟨some "P", none, none, some "2000-01-01T00:00:00+00:00"⟩)]⟩

/-- A store pairing an unparseable `seen_at` with a parseable one, for the
statistics sort-order comparison. -/
def statStore : StateManager :=
  ⟨["a", "b"],
   [("a", ⟨some "A", none, none, some "zzz"⟩),
    ("b", ⟨some "B", none, none, some "2024-01-01T00:00:00"⟩)]⟩

/-- `pat` occurs as a contiguous substring of `s` (used to state
non-occurrence side conditions of the strip-metadata theorems). -/
def occurs (pat : List Char) : List Char → Bool
  | [] => pat.isEmpty
  | c :: rest => pat.isPrefixOf (c :: rest) || occurs pat rest

/-- A store with one prunable record, one recent record, and one record
with an unparseable timestamp. -/
def demoStore : StateManager :=
  ⟨["a", "b", "c"],
   [("a", ⟨some "A", none, some "f1", some "2020-01-01T00:00:00"⟩),
    ("b", ⟨some "B", none, some "f1", some "2099-01-01T00:00:00"⟩),
    ("c", ⟨some "C", none, some "f2", some "garbage"⟩)]⟩

/-- A store with a single record carrying no `seen_at` field. -/
def noTsStore : StateManager := ⟨["x"], [("x", ⟨some "X", none, none, none⟩)]⟩

/-! ## C2 -/

/-- C2 (counterexample): on the sample input, `_extract_budget_and_categories`
does *not* return the categories `["Développement spécifique", "API"]`
claimed by the spec: the lazy group 2 stops just before the capital `A` of
`API`, so the captured text is `"Développement spécifique,"`, whose comma
split produces a trailing empty category. -/
theorem c2_counterexample :
    extract_budget_and_categories sampleDescr ≠
      ("Moins de 500 €", ["Développement spécifique", "API"]) := by decide

/-- C2 (amended): on the input
`"Budget : Moins de 500 € - Catégories : Développement spécifique, API Voir ce projet sur Codeur"`,
the extract operation returns budget `"Moins de 500 €"` and the category
sequence `["Développement spécifique", ""]` — the capital-letter lookahead
boundary cuts the category capture at `"API"`, leaving a trailing comma
that splits into an empty final category. -/
theorem c2_extract_amended :
    extract_budget_and_categories sampleDescr =
      ("Moins de 500 €", ["Développement spécifique", ""]) := by rfl

/-! ## C5 -/

/-- C5: for every item list and store state, `get_new_missions` returns a
sublist of its input (input order preserved), containing exactly the input
items whose id is not in the seen set, and it is idempotent:
filtering its own result again returns the same sequence.  (It is a pure
function of the state — the embedding gives it no way to mutate the
store, mirroring the read-only Python code.) -/
theorem c5_filter_new : ∀ (st : StateManager) (missions : List Mission),
    (get_new_missions st missions).Sublist missions ∧
    (∀ m, m ∈ get_new_missions st missions ↔
       m ∈ missions ∧ is_mission_seen st m.id = false) ∧
    get_new_missions st (get_new_missions st missions) =
      get_new_missions st missions := by
  intro st missions
  refine ⟨List.filter_sublist _, fun m => ?_, ?_⟩
  · simp [get_new_missions]
  · simp [get_new_missions, List.filter_filter]

/-! ## C6 -/

/-- C6: whenever any step of `save_state` fails — the pruning pass raising,
or the temp-file write, or the rename over the target — the call returns
`false`, the temporary file is removed, and the previously committed data
file is unaltered; when it returns `true`, the data file now holds exactly
the serialized snapshot of the pruned state, the write and the rename both
succeeded, and the temporary file is gone (it was renamed over the
target). -/
theorem c6_persist_atomic : ∀ (st : StateManager) (now : PyDateTime)
    (nowStr : String) (fs : FS) (w r : Bool) (st1 : StateManager) (fs1 : FS),
    (save_state st now nowStr fs w r = (false, st1, fs1) →
       fs1.main = fs.main ∧ fs1.tmp = none) ∧
    (save_state st now nowStr fs w r = (true, st1, fs1) →
       cleanup_old_missions st now 30 = Except.ok st1 ∧ w = true ∧ r = true ∧
       fs1 = ⟨some ⟨st1.seen_missions, st1.missions_data, nowStr⟩, none⟩) := by
  intro st now nowStr fs w r st1 fs1
  rcases hcl : cleanup_old_missions st now 30 with e | st2 <;>
    cases w <;> cases r <;>
    constructor <;> intro he <;>
    simp [save_state, hcl] at he <;>
    obtain ⟨he1, he2⟩ := he <;> subst he1 <;> subst he2 <;> simp_all

/-- C6 (witness): a failing write on a filesystem with a stale temp file
leaves the committed file alone and clears the temp; a fully successful
save on the empty store commits its snapshot. -/
theorem c6_persist_atomic_witness :
    ((⟨some ⟨["z"], [], "old"⟩, none⟩ : FS).main =
       (⟨some ⟨["z"], [], "old"⟩, some ⟨[], [], "stale"⟩⟩ : FS).main ∧
     (⟨some ⟨["z"], [], "old"⟩, none⟩ : FS).tmp = none) ∧
    (cleanup_old_missions ⟨[], []⟩ nowJun2024 30 = Except.ok ⟨[], []⟩ ∧
     true = true ∧ true = true ∧
     (⟨some ⟨[], [], "t1"⟩, none⟩ : FS) =
       ⟨some ⟨(⟨[], []⟩ : StateManager).seen_missions,
             (⟨[], []⟩ : StateManager).missions_data, "t1"⟩, none⟩) :=
  ⟨(c6_persist_atomic ⟨[], []⟩ nowJun2024 "t1"
      ⟨some ⟨["z"], [], "old"⟩, some ⟨[], [], "stale"⟩⟩ false true
      ⟨[], []⟩ ⟨some ⟨["z"], [], "old"⟩, none⟩).1 rfl,
   (c6_persist_atomic ⟨[], []⟩ nowJun2024 "t1"
      ⟨some ⟨["z"], [], "old"⟩, some ⟨[], [], "stale"⟩⟩ true true
      ⟨[], []⟩ ⟨some ⟨[], [], "t1"⟩, none⟩).2 rfl⟩

/-! ## C9: batch delivery lemmas -/

theorem chunksGo_nil {α : Type} : ∀ (fuel : Nat), chunksGo (α := α) fuel [] = [] := by
  intro fuel; cases fuel <;> rfl

theorem chunksGo_join {α : Type} : ∀ (fuel : Nat) (l : List α), l.length ≤ fuel →
    (chunksGo fuel l).flatten = l := by
  intro fuel
  induction fuel with
  | zero =>
    intro l hl
    have : l = [] := List.eq_nil_of_length_eq_zero (Nat.le_zero.mp hl)
    subst this; rfl
  | succ n ih =>
    intro l hl
    cases l with
    | nil => rfl
    | cons x xs =>
      show (List.take 10 (x :: xs) :: chunksGo n (List.drop 10 (x :: xs))).flatten = x :: xs
      rw [List.flatten_cons, ih]
      · exact List.take_append_drop 10 (x :: xs)
      · simp at hl ⊢; omega

theorem chunksGo_length {α : Type} : ∀ (fuel : Nat) (l : List α), l ≠ [] →
    l.length ≤ fuel → (chunksGo fuel l).length = (l.length + 9) / 10 := by
  intro fuel
  induction fuel with
  | zero =>
    intro l hne hl
    exact absurd (List.eq_nil_of_length_eq_zero (Nat.le_zero.mp hl)) hne
  | succ n ih =>
    intro l hne hl
    cases l with
    | nil => exact absurd rfl hne
    | cons x xs =>
      show (List.take 10 (x :: xs) :: chunksGo n (List.drop 10 (x :: xs))).length =
        ((x :: xs).length + 9) / 10
      rcases Nat.lt_or_ge (x :: xs).length 11 with hs | hs
      · have hdrop : List.drop 10 (x :: xs) = [] := by
          apply List.eq_nil_of_length_eq_zero
          simp at hs ⊢; omega
        rw [hdrop, chunksGo_nil]
        have h10 : 1 * 10 ≤ (x :: xs).length + 9 := by simp
        have h20 : (x :: xs).length + 9 < (1 + 1) * 10 := by simp at hs ⊢; omega
        exact ((Nat.div_eq_of_lt_le h10 h20).symm)
      · have hdne : List.drop 10 (x :: xs) ≠ [] := by
          intro h
          have hlen := congrArg List.length h
          simp at hlen hs
          omega
        have hdl : (List.drop 10 (x :: xs)).length ≤ n := by
          simp at hl ⊢; omega
        rw [List.length_cons, ih _ hdne hdl, List.length_drop]
        have heq : (x :: xs).length + 9 = ((x :: xs).length - 10 + 9) + 10 := by
          simp at hs ⊢; omega
        rw [heq, Nat.add_div_right _ (by norm_num)]

theorem chunksGo_mem_le {α : Type} : ∀ (fuel : Nat) (l : List α), l.length ≤ fuel →
    ∀ c ∈ chunksGo fuel l, c.length ≤ 10 := by
  intro fuel
  induction fuel with
  | zero =>
    intro l hl c hc
    have : l = [] := List.eq_nil_of_length_eq_zero (Nat.le_zero.mp hl)
    subst this; simp [chunksGo] at hc
  | succ n ih =>
    intro l hl c hc
    cases l with
    | nil => simp [chunksGo] at hc
    | cons x xs =>
      have hmem : c = List.take 10 (x :: xs) ∨ c ∈ chunksGo n (List.drop 10 (x :: xs)) := by
        simpa [chunksGo] using hc
      rcases hmem with h | h
      · subst h; simp [List.length_take]
      · exact ih _ (by simp at hl ⊢; omega) c h

theorem chunksGo_map_length {α : Type} : ∀ (fuel : Nat) (l : List α),
    (chunksGo fuel l).map List.length = lenChunksGo fuel l.length := by
  intro fuel
  induction fuel with
  | zero =>
    intro l
    cases l with
    | nil => rfl
    | cons x xs => simp [chunksGo, lenChunksGo]
  | succ n ih =>
    intro l
    cases l with
    | nil => rfl
    | cons x xs =>
      show (List.take 10 (x :: xs)).length ::
          (chunksGo n (List.drop 10 (x :: xs))).map List.length = _
      rw [ih, List.length_take, List.length_drop]
      rfl

theorem sendGo_eq (ok : Nat → Bool) : ∀ (bs : List (List Mission)) (i acc : Nat),
    sendGo ok i acc bs =
      acc + (((bs.enumFrom i).filter (fun p => ok p.1)).map
        (fun p => p.2.length)).sum := by
  intro bs
  induction bs with
  | nil =>
    intro i acc
    simp [sendGo]
  | cons b bs ih =>
    intro i acc
    show sendGo ok (i + 1) (if ok i then acc + b.length else acc) bs = _
    rw [ih]
    cases h : ok i
    · simp [List.enumFrom, h]
    · simp [List.enumFrom, h]
      omega

/-- C9: for every non-empty batch, `send_multiple_missions` issues
`ceil(n/10)` delivery calls; each call carries at most 10 items; the calls
together carry the batch in order; a batch of 23 items produces exactly 3
calls of sizes 10, 10, 3; and the returned count is the total size of the
calls whose delivery succeeded. -/
theorem c9_batching : ∀ (ok : Nat → Bool) (missions : List Mission), missions ≠ [] →
    (chunksOf10 missions).length = (missions.length + 9) / 10 ∧
    (∀ c ∈ chunksOf10 missions, c.length ≤ 10) ∧
    (chunksOf10 missions).flatten = missions ∧
    (missions.length = 23 → (chunksOf10 missions).map List.length = [10, 10, 3]) ∧
    send_multiple_missions ok missions =
      (((chunksOf10 missions).enum.filter (fun p => ok p.1)).map
        (fun p => p.2.length)).sum := by
  intro ok missions hne
  refine ⟨chunksGo_length _ _ hne le_rfl, chunksGo_mem_le _ _ le_rfl,
    chunksGo_join _ _ le_rfl, ?_, ?_⟩
  · intro h23
    rw [chunksOf10, chunksGo_map_length, h23]
    rfl
  · rw [send_multiple_missions, if_neg hne, sendGo_eq]
    simp [List.enum]

/-- C9 (witness): the batch of 23 missions is delivered in chunks of sizes
10, 10, 3. -/
theorem c9_batching_witness : (chunksOf10 batch23).map List.length = [10, 10, 3] :=
  (c9_batching (fun _ => true) batch23 (by decide)).2.2.2.1 (by decide)

/-! ## C7: lockstep-invariant lemmas -/

theorem mem_setAdd (s : List String) (x y : String) :
    y ∈ setAdd s x ↔ y ∈ s ∨ y = x := by
  by_cases hx : x ∈ s
  · simp only [setAdd, if_pos hx]
    constructor
    · exact Or.inl
    · rintro (h | h)
      · exact h
      · subst h; exact hx
  · simp [setAdd, if_neg hx]

theorem nodup_setAdd (s : List String) (x : String) (h : s.Nodup) :
    (setAdd s x).Nodup := by
  by_cases hx : x ∈ s
  · simpa [setAdd, if_pos hx] using h
  · simp [setAdd, if_neg hx, List.nodup_append, h, hx]

theorem mem_foldl_setAdd : ∀ (l acc : List String) (x : String),
    x ∈ l.foldl setAdd acc ↔ x ∈ acc ∨ x ∈ l := by
  intro l
  induction l with
  | nil => simp
  | cons a l ih =>
    intro acc x
    rw [List.foldl_cons, ih, mem_setAdd]
    simp
    tauto

theorem nodup_foldl_setAdd : ∀ (l acc : List String), acc.Nodup →
    (l.foldl setAdd acc).Nodup := by
  intro l
  induction l with
  | nil => intro acc h; exact h
  | cons a l ih => intro acc h; exact ih _ (nodup_setAdd _ _ h)

theorem dictInsert_cons_pos (a : String) (b : MissionData)
    (rest : List (String × MissionData)) (k : String) (v : MissionData)
    (h : a = k) : dictInsert ((a, b) :: rest) k v = (k, v) :: rest := by
  simp [dictInsert, h]

theorem dictInsert_cons_neg (a : String) (b : MissionData)
    (rest : List (String × MissionData)) (k : String) (v : MissionData)
    (h : ¬ a = k) :
    dictInsert ((a, b) :: rest) k v = (a, b) :: dictInsert rest k v := by
  simp [dictInsert, h]

theorem mem_keys_dictInsert : ∀ (d : List (String × MissionData)) (k : String)
    (v : MissionData) (x : String),
    x ∈ (dictInsert d k v).map Prod.fst ↔ x ∈ d.map Prod.fst ∨ x = k := by
  intro d
  induction d with
  | nil => simp [dictInsert]
  | cons p rest ih =>
    rcases p with ⟨a, b⟩
    intro k v x
    by_cases h : a = k
    · rw [dictInsert_cons_pos a b rest k v h]
      subst h
      simp
      tauto
    · rw [dictInsert_cons_neg a b rest k v h]
      simp [ih]
      tauto

theorem nodup_keys_dictInsert : ∀ (d : List (String × MissionData)) (k : String)
    (v : MissionData), (d.map Prod.fst).Nodup →
    ((dictInsert d k v).map Prod.fst).Nodup := by
  intro d
  induction d with
  | nil => intro k v _; simp [dictInsert]
  | cons p rest ih =>
    rcases p with ⟨a, b⟩
    intro k v h
    simp only [List.map_cons, List.nodup_cons] at h
    by_cases hak : a = k
    · rw [dictInsert_cons_pos a b rest k v hak]
      subst hak
      simp only [List.map_cons, List.nodup_cons]
      exact ⟨h.1, h.2⟩
    · rw [dictInsert_cons_neg a b rest k v hak]
      simp only [List.map_cons, List.nodup_cons]
      constructor
      · intro hmem
        rcases (mem_keys_dictInsert rest k v a).mp hmem with hin | heq
        · exact h.1 hin
        · exact hak heq
      · exact ih k v h.2

theorem mem_setDiscard (s : List String) (i x : String) :
    x ∈ setDiscard s i ↔ x ∈ s ∧ x ≠ i := by
  simp [setDiscard]

theorem mem_foldl_setDiscard : ∀ (ids s : List String) (x : String),
    x ∈ ids.foldl setDiscard s ↔ x ∈ s ∧ x ∉ ids := by
  intro ids
  induction ids with
  | nil => simp
  | cons i ids ih =>
    intro s x
    rw [List.foldl_cons, ih, mem_setDiscard]
    simp
    tauto

theorem nodup_foldl_setDiscard : ∀ (ids s : List String), s.Nodup →
    (ids.foldl setDiscard s).Nodup := by
  intro ids
  induction ids with
  | nil => intro s h; exact h
  | cons i ids ih =>
    intro s h
    exact ih _ (List.Nodup.filter _ h)

theorem keys_dictPop (d : List (String × MissionData)) (k : String) :
    (dictPop d k).map Prod.fst = (d.map Prod.fst).filter (fun y => y ≠ k) := by
  induction d with
  | nil => rfl
  | cons p rest ih =>
    rcases p with ⟨a, b⟩
    by_cases h : a = k
    · simp [dictPop, List.filter_cons, h] at ih ⊢
      simpa [dictPop] using ih
    · simp [dictPop, List.filter_cons, h] at ih ⊢
      simpa [dictPop] using ih

theorem mem_foldl_dictPop : ∀ (ids : List String) (d : List (String × MissionData))
    (k : String) (v : MissionData),
    (k, v) ∈ ids.foldl dictPop d ↔ (k, v) ∈ d ∧ k ∉ ids := by
  intro ids
  induction ids with
  | nil => simp
  | cons i ids ih =>
    intro d k v
    rw [List.foldl_cons, ih]
    simp [dictPop]
    tauto

theorem mem_keys_foldl_dictPop : ∀ (ids : List String)
    (d : List (String × MissionData)) (x : String),
    x ∈ (ids.foldl dictPop d).map Prod.fst ↔ x ∈ d.map Prod.fst ∧ x ∉ ids := by
  intro ids
  induction ids with
  | nil => simp
  | cons i ids ih =>
    intro d x
    rw [List.foldl_cons, ih, keys_dictPop]
    simp
    tauto

theorem nodup_keys_foldl_dictPop : ∀ (ids : List String)
    (d : List (String × MissionData)), (d.map Prod.fst).Nodup →
    ((ids.foldl dictPop d).map Prod.fst).Nodup := by
  intro ids
  induction ids with
  | nil => intro d h; exact h
  | cons i ids ih =>
    intro d h
    rw [List.foldl_cons]
    apply ih
    rw [keys_dictPop]
    exact List.Nodup.filter _ h

theorem stateOK_empty : StateOK ⟨[], []⟩ :=
  ⟨List.nodup_nil, List.nodup_nil, by simp⟩

/-- C7 (amended): the lockstep invariant — seen set and record map hold
exactly the same identifiers, each at most once — holds for the empty state,
is *established* by `load_state` when the loaded file's seen list and record
keys coincide (in particular for a missing/unparseable file), and is
*preserved* by `mark_mission_seen`, by a completed `_cleanup_old_missions`,
and by `reset_state`.  (`load_state` performs no reconciliation, so a file
whose two collections disagree loads into a state violating the invariant —
see the counterexample.) -/
theorem c7_invariant_amended :
    StateOK (load_state none) ∧
    (∀ seen data, (data.map Prod.fst).Nodup →
       (∀ id, id ∈ seen ↔ id ∈ data.map Prod.fst) →
       StateOK (load_state (some (seen, data)))) ∧
    (∀ st m nowStr, StateOK st → StateOK (mark_mission_seen st m nowStr)) ∧
    (∀ st now st2, StateOK st → cleanup_old_missions st now 30 = Except.ok st2 →
       StateOK st2) ∧
    (∀ st fs b, StateOK (reset_state st fs b).2.1) := by
  refine ⟨stateOK_empty, ?_, ?_, ?_, ?_⟩
  · intro seen data hnd hiff
    refine ⟨nodup_foldl_setAdd _ _ List.nodup_nil, hnd, fun id => ?_⟩
    show id ∈ dedupKeep seen ↔ id ∈ data.map Prod.fst
    rw [dedupKeep, mem_foldl_setAdd]
    simp [hiff id]
  · intro st m nowStr h
    refine ⟨nodup_setAdd _ _ h.1, nodup_keys_dictInsert _ _ _ h.2.1, fun id => ?_⟩
    show id ∈ setAdd st.seen_missions m.id ↔
      id ∈ (dictInsert st.missions_data m.id
        ⟨some m.title, some m.pub_date, some m.feed_name, some nowStr⟩).map Prod.fst
    rw [mem_setAdd, mem_keys_dictInsert]
    simp [h.2.2 id]
  · intro st now st2 h hcl
    rw [cleanup_old_missions] at hcl
    rcases hcol : collectToRemove (subDays now 30) st.missions_data with e | ids
    · rw [hcol] at hcl; simp [Except.map] at hcl
    · rw [hcol] at hcl
      simp [Except.map] at hcl
      subst hcl
      refine ⟨nodup_foldl_setDiscard _ _ h.1, nodup_keys_foldl_dictPop _ _ h.2.1,
        fun id => ?_⟩
      show id ∈ ids.foldl setDiscard st.seen_missions ↔
        id ∈ (ids.foldl dictPop st.missions_data).map Prod.fst
      rw [mem_foldl_setDiscard, mem_keys_foldl_dictPop]
      have hid := h.2.2 id
      constructor
      · rintro ⟨hs, hni⟩; exact ⟨hid.mp hs, hni⟩
      · rintro ⟨hk, hni⟩; exact ⟨hid.mpr hk, hni⟩
  · intro st fs b
    rcases fs with ⟨main, tmp⟩
    cases main <;> cases b <;> exact stateOK_empty

/-- C7 (counterexample): loading a state file whose seen-identifier list
contains "a" but whose record map is empty yields a state where the two
collections disagree: `load_state` copies both collections as they are,
with no reconciliation. -/
theorem c7_counterexample : ¬ StateOK (load_state (some (["a"], []))) := by
  intro h
  have h3 := h.2.2 "a"
  simp [load_state, dedupKeep, setAdd] at h3

/-- C7 (witness): marking a mission on the empty store preserves the
invariant. -/
theorem c7_invariant_amended_witness :
    StateOK (mark_mission_seen ⟨[], []⟩ ⟨"m1", "t", "p", "f"⟩
      "2024-01-01T00:00:00") :=
  c7_invariant_amended.2.2.1 ⟨[], []⟩ ⟨"m1", "t", "p", "f"⟩
    "2024-01-01T00:00:00" stateOK_empty

/-! ## C1 / C10: pruning lemmas -/

theorem collect_ok_of_noAware : ∀ (l : List (String × MissionData)) (cutoff : PyDateTime),
    (∀ p ∈ l, isAwareRec p.2 = false) →
    collectToRemove cutoff l =
      Except.ok ((l.filter (fun p => isOldRec cutoff p.2)).map Prod.fst) := by
  intro l cutoff
  induction l with
  | nil => intro _; rfl
  | cons p rest ih =>
    intro h
    rcases p with ⟨id, md⟩
    have hp := h (id, md) (by simp)
    have hrest : ∀ q ∈ rest, isAwareRec q.2 = false := fun q hq => h q (by simp [hq])
    rcases hmd : fromisoformat (effSeenAt md) with _ | ⟨dt, aware⟩
    · simp only [collectToRemove, hmd]
      rw [ih hrest]
      simp [List.filter_cons, isOldRec, hmd]
    · cases aware with
      | true => simp [isAwareRec, hmd] at hp
      | false =>
        simp only [collectToRemove, hmd]
        by_cases hlt : dtLt dt cutoff
        · rw [ih hrest]
          simp [List.filter_cons, isOldRec, hmd, hlt]
        · rw [ih hrest]
          simp [List.filter_cons, isOldRec, hmd, hlt]

theorem collect_error_of_aware : ∀ (l : List (String × MissionData)) (cutoff : PyDateTime),
    (∃ p ∈ l, isAwareRec p.2 = true) →
    collectToRemove cutoff l = Except.error () := by
  intro l cutoff
  induction l with
  | nil => rintro ⟨q, hq, _⟩; simp at hq
  | cons p rest ih =>
    rintro ⟨q, hq, hqa⟩
    rcases p with ⟨id, md⟩
    rcases List.mem_cons.mp hq with hhd | htl
    · subst hhd
      rcases hmd : fromisoformat (effSeenAt md) with _ | ⟨dt, aware⟩
      · simp [isAwareRec, hmd] at hqa
      · cases aware with
        | false => simp [isAwareRec, hmd] at hqa
        | true => simp only [collectToRemove]; rw [hmd]
    · have herr := ih ⟨q, htl, hqa⟩
      rcases hmd : fromisoformat (effSeenAt md) with _ | ⟨dt, aware⟩
      · simp only [collectToRemove, hmd]
        exact herr
      · cases aware with
        | true => simp only [collectToRemove, hmd]
        | false =>
          simp only [collectToRemove, hmd]
          by_cases hlt : dtLt dt cutoff
          · simp [hlt, herr]
          · simp [hlt, herr]

theorem assoc_unique : ∀ (l : List (String × MissionData)) (k : String)
    (a b : MissionData), (l.map Prod.fst).Nodup →
    (k, a) ∈ l → (k, b) ∈ l → a = b := by
  intro l
  induction l with
  | nil => intro k a b _ ha; simp at ha
  | cons p rest ih =>
    intro k a b hnd ha hb
    simp only [List.map_cons, List.nodup_cons] at hnd
    rcases List.mem_cons.mp ha with h1 | h1 <;> rcases List.mem_cons.mp hb with h2 | h2
    · rw [← h1] at h2
      injection h2 with _ h3
      exact h3.symm
    · exfalso
      apply hnd.1
      rw [← h1]
      exact List.mem_map.mpr ⟨(k, b), h2, rfl⟩
    · exfalso
      apply hnd.1
      rw [← h2]
      exact List.mem_map.mpr ⟨(k, a), h1, rfl⟩
    · exact ih k a b hnd.2 h1 h2

theorem notOld_not_removed (data : List (String × MissionData))
    (cutoff : PyDateTime) (id : String) (md : MissionData)
    (hnd : (data.map Prod.fst).Nodup) (hmem : (id, md) ∈ data)
    (hnotold : isOldRec cutoff md = false) :
    id ∉ (data.filter (fun p => isOldRec cutoff p.2)).map Prod.fst := by
  intro hid
  rcases List.mem_map.mp hid with ⟨q, hq, hq1⟩
  rcases q with ⟨qk, qv⟩
  rcases List.mem_filter.mp hq with ⟨hqmem, hqold⟩
  simp at hq1
  subst hq1
  have hqv : qv = md := assoc_unique _ _ _ _ hnd hqmem hmem
  subst hqv
  rw [hqold] at hnotold
  exact Bool.true_eq_false.mp hnotold

/-- C1 (amended): provided no record's effective `observedAt` parses to an
offset-aware datetime, the default-retention prune completes and removes a
record (identifier from the set, record from the map) exactly when its
effective `observedAt` — `seen_at` defaulted to `"1970-01-01"` — parses to
a naive datetime strictly older than `now - 30 days`; records that are not
older are kept, and in particular every record whose `observedAt` fails to
parse is kept with its identifier unchanged.  If some record's `observedAt`
parses to an offset-aware datetime, the naive/aware comparison raises
`TypeError` (not caught by the `except ValueError` handler), the prune
aborts, and nothing at all is removed. -/
theorem c1_prune_amended :
    (∀ (st : StateManager) (now : PyDateTime) (id : String) (md : MissionData),
      (∀ p ∈ st.missions_data, isAwareRec p.2 = false) →
      (st.missions_data.map Prod.fst).Nodup →
      (id, md) ∈ st.missions_data →
      ∃ st2, cleanup_old_missions st now 30 = Except.ok st2 ∧
        (isOldRec (subDays now 30) md = true →
          id ∉ st2.seen_missions ∧ ∀ r, (id, r) ∉ st2.missions_data) ∧
        (isOldRec (subDays now 30) md = false →
          (id, md) ∈ st2.missions_data ∧
          (id ∈ st2.seen_missions ↔ id ∈ st.seen_missions)) ∧
        (fromisoformat (effSeenAt md) = none →
          (id, md) ∈ st2.missions_data ∧
          (id ∈ st2.seen_missions ↔ id ∈ st.seen_missions))) ∧
    (∀ (st : StateManager) (now : PyDateTime),
      (∃ p ∈ st.missions_data, isAwareRec p.2 = true) →
      cleanup_old_missions st now 30 = Except.error ()) := by
  constructor
  · intro st now id md hNoAware hnd hmem
    have hcol := collect_ok_of_noAware st.missions_data (subDays now 30) hNoAware
    refine ⟨⟨((st.missions_data.filter
        (fun p => isOldRec (subDays now 30) p.2)).map Prod.fst).foldl setDiscard
          st.seen_missions,
      ((st.missions_data.filter
        (fun p => isOldRec (subDays now 30) p.2)).map Prod.fst).foldl dictPop
          st.missions_data⟩, ?_, ?_, ?_, ?_⟩
    · rw [cleanup_old_missions, hcol]
      rfl
    · intro hold
      have hid : id ∈ (st.missions_data.filter
          (fun p => isOldRec (subDays now 30) p.2)).map Prod.fst :=
        List.mem_map.mpr ⟨(id, md), List.mem_filter.mpr ⟨hmem, hold⟩, rfl⟩
      constructor
      · intro hin
        exact ((mem_foldl_setDiscard _ _ _).mp hin).2 hid
      · intro r hr
        exact ((mem_foldl_dictPop _ _ _ _).mp hr).2 hid
    · intro hnotold
      have hid := notOld_not_removed st.missions_data _ id md hnd hmem hnotold
      constructor
      · exact (mem_foldl_dictPop _ _ _ _).mpr ⟨hmem, hid⟩
      · rw [mem_foldl_setDiscard]
        tauto
    · intro hparse
      have hnotold : isOldRec (subDays now 30) md = false := by
        simp [isOldRec, hparse]
      have hid := notOld_not_removed st.missions_data _ id md hnd hmem hnotold
      constructor
      · exact (mem_foldl_dictPop _ _ _ _).mpr ⟨hmem, hid⟩
      · rw [mem_foldl_setDiscard]
        tauto
  · intro st now hex
    rw [cleanup_old_missions, collect_error_of_aware _ _ hex]
    rfl

/-- C1 (counterexample): the record of `awareStore` has
`seen_at = "2000-01-01T00:00:00+00:00"`, which parses successfully (to an
aware datetime) and is strictly older than `now - 30 days` — the claim
says prune must remove it — yet `_cleanup_old_missions` raises `TypeError`
(modelled as `Except.error`) and removes nothing. -/
theorem c1_counterexample :
    fromisoformat "2000-01-01T00:00:00+00:00" =
      some (⟨2000, 1, 1, 0, 0, 0, 0⟩, true) ∧
    dtLt ⟨2000, 1, 1, 0, 0, 0, 0⟩ (subDays nowJun2024 30) = true ∧
    cleanup_old_missions awareStore nowJun2024 30 = Except.error () :=
  ⟨rfl, rfl, rfl⟩

/-- C1 (witness): on a store with an old record, a future record and an
unparseable record, prune completes and removes the old record "a". -/
theorem c1_prune_amended_witness :
    ∃ st2, cleanup_old_missions demoStore nowJun2024 30 = Except.ok st2 ∧
      "a" ∉ st2.seen_missions ∧ ∀ r, ("a", r) ∉ st2.missions_data := by
  obtain ⟨st2, h1, h2, _, _⟩ := c1_prune_amended.1 demoStore nowJun2024 "a"
    ⟨some "A", none, some "f1", some "2020-01-01T00:00:00"⟩
    (by decide) (by decide) (by decide)
  exact ⟨st2, h1, h2 (by decide)⟩

/-- C10 (amended): provided no record's `observedAt` parses to an
offset-aware datetime, a record lacking `observedAt` entirely is given the
default `"1970-01-01"`, which parses to the (naive) epoch start; whenever
the cutoff `now - 30 days` lies after the epoch, such a record and its
identifier are removed by prune — unlike a record with a
present-but-unparseable `observedAt`, which is kept.  (In a store that
also holds an aware-timestamped record, prune instead raises and removes
nothing — see the counterexample.) -/
theorem c10_missing_seen_at_amended :
    (∀ (st : StateManager) (now : PyDateTime) (id : String) (md : MissionData),
      (∀ p ∈ st.missions_data, isAwareRec p.2 = false) →
      (id, md) ∈ st.missions_data →
      md.seen_at = none →
      dtLt ⟨1970, 1, 1, 0, 0, 0, 0⟩ (subDays now 30) = true →
      fromisoformat (effSeenAt md) = some (⟨1970, 1, 1, 0, 0, 0, 0⟩, false) ∧
      ∃ st2, cleanup_old_missions st now 30 = Except.ok st2 ∧
        id ∉ st2.seen_missions ∧ ∀ r, (id, r) ∉ st2.missions_data) ∧
    (∀ (st : StateManager) (now : PyDateTime) (id : String) (md : MissionData)
        (s : String),
      (∀ p ∈ st.missions_data, isAwareRec p.2 = false) →
      (st.missions_data.map Prod.fst).Nodup →
      (id, md) ∈ st.missions_data →
      md.seen_at = some s → fromisoformat s = none →
      ∃ st2, cleanup_old_missions st now 30 = Except.ok st2 ∧
        (id, md) ∈ st2.missions_data) := by
  constructor
  · intro st now id md hNoAware hmem hnone hepoch
    have heff : effSeenAt md = "1970-01-01" := by simp [effSeenAt, hnone]
    have hparse : fromisoformat (effSeenAt md) =
        some (⟨1970, 1, 1, 0, 0, 0, 0⟩, false) := by
      rw [heff]
      rfl
    have hold : isOldRec (subDays now 30) md = true := by
      simp [isOldRec, hparse, hepoch]
    have hcol := collect_ok_of_noAware st.missions_data (subDays now 30) hNoAware
    have hid : id ∈ (st.missions_data.filter
        (fun p => isOldRec (subDays now 30) p.2)).map Prod.fst :=
      List.mem_map.mpr ⟨(id, md), List.mem_filter.mpr ⟨hmem, hold⟩, rfl⟩
    refine ⟨hparse, ⟨((st.missions_data.filter
        (fun p => isOldRec (subDays now 30) p.2)).map Prod.fst).foldl setDiscard
          st.seen_missions,
      ((st.missions_data.filter
        (fun p => isOldRec (subDays now 30) p.2)).map Prod.fst).foldl dictPop
          st.missions_data⟩, ?_, ?_, ?_⟩
    · rw [cleanup_old_missions, hcol]
      rfl
    · intro hin
      exact ((mem_foldl_setDiscard _ _ _).mp hin).2 hid
    · intro r hr
      exact ((mem_foldl_dictPop _ _ _ _).mp hr).2 hid
  · intro st now id md s hNoAware hnd hmem hsome hbad
    have heff : effSeenAt md = s := by simp [effSeenAt, hsome]
    have hnotold : isOldRec (subDays now 30) md = false := by
      simp [isOldRec, heff, hbad]
    have hcol := collect_ok_of_noAware st.missions_data (subDays now 30) hNoAware
    refine ⟨⟨((st.missions_data.filter
        (fun p => isOldRec (subDays now 30) p.2)).map Prod.fst).foldl setDiscard
          st.seen_missions,
      ((st.missions_data.filter
        (fun p => isOldRec (subDays now 30) p.2)).map Prod.fst).foldl dictPop
          st.missions_data⟩, ?_, ?_⟩
    · rw [cleanup_old_missions, hcol]
      rfl
    · exact (mem_foldl_dictPop _ _ _ _).mpr
        ⟨hmem, notOld_not_removed _ _ _ _ hnd hmem hnotold⟩

/-- C10 (counterexample): in `mixedStore`, record "x" lacks `observedAt`
entirely (so the claim says it is always removed when the cutoff is past
the epoch), but the sibling record "p" has an offset-aware timestamp, so
prune raises `TypeError` and removes nothing — "x" is not removed. -/
theorem c10_counterexample :
    ("x", ⟨some "X", none, none, none⟩) ∈ mixedStore.missions_data ∧
    (⟨some "X", none, none, none⟩ : MissionData).seen_at = none ∧
    dtLt ⟨1970, 1, 1, 0, 0, 0, 0⟩ (subDays nowJun2024 30) = true ∧
    cleanup_old_missions mixedStore nowJun2024 30 = Except.error () :=
  ⟨by simp [mixedStore], rfl, rfl, rfl⟩

/-- C10 (witness): on a store holding only a record with no `seen_at`, the
default epoch date parses and the record is pruned together with its
identifier. -/
theorem c10_missing_seen_at_amended_witness :
    fromisoformat (effSeenAt ⟨some "X", none, none, none⟩) =
      some (⟨1970, 1, 1, 0, 0, 0, 0⟩, false) ∧
    ∃ st2, cleanup_old_missions noTsStore nowJun2024 30 = Except.ok st2 ∧
      "x" ∉ st2.seen_missions ∧ ∀ r, ("x", r) ∉ st2.missions_data :=
  c10_missing_seen_at_amended.1 noTsStore nowJun2024 "x"
    ⟨some "X", none, none, none⟩ (by decide) (by decide) rfl (by decide)

theorem strLeL_total : ∀ (a b : List Char), strLeL a b = true ∨ strLeL b a = true := by
  intro a
  induction a with
  | nil => intro b; left; rfl
  | cons x xs ih =>
    intro b
    cases b with
    | nil => right; rfl
    | cons y ys =>
      by_cases h1 : x.toNat < y.toNat
      · left; simp [strLeL, h1]
      · by_cases h2 : y.toNat < x.toNat
        · right; simp [strLeL, h2]
        · rcases ih ys with h | h
          · left; simp [strLeL, h1, h2, h]
          · right; simp [strLeL, h1, h2, h]

theorem strLeL_trans : ∀ (a b c : List Char),
    strLeL a b = true → strLeL b c = true → strLeL a c = true := by
  intro a
  induction a with
  | nil => intro b c _ _; rfl
  | cons x xs ih =>
    intro b c h1 h2
    cases b with
    | nil => simp [strLeL] at h1
    | cons y ys =>
      cases c with
      | nil => simp [strLeL] at h2
      | cons z zs =>
        simp only [strLeL] at h1 h2 ⊢
        by_cases hxy : x.toNat < y.toNat
        · by_cases hyz : y.toNat < z.toNat
          · simp [show x.toNat < z.toNat from Nat.lt_trans hxy hyz]
          · by_cases hzy : z.toNat < y.toNat
            · simp [hyz, hzy] at h2
            · have hyez : y.toNat = z.toNat := Nat.le_antisymm
                (Nat.le_of_not_lt hzy) (Nat.le_of_not_lt hyz)
              simp [show x.toNat < z.toNat from hyez ▸ hxy]
        · by_cases hyx : y.toNat < x.toNat
          · simp [hxy, hyx] at h1
          · have hxey : x.toNat = y.toNat := Nat.le_antisymm
              (Nat.le_of_not_lt hyx) (Nat.le_of_not_lt hxy)
            simp [hxy, hyx] at h1
            by_cases hyz : y.toNat < z.toNat
            · simp [show x.toNat < z.toNat from hxey ▸ hyz]
            · by_cases hzy : z.toNat < y.toNat
              · simp [hyz, hzy] at h2
              · simp [hyz, hzy] at h2
                have hxz : ¬ x.toNat < z.toNat := by omega
                have hzx : ¬ z.toNat < x.toNat := by omega
                simp [hxz, hzx]
                exact ih ys zs h1 h2

theorem perm_insSorted {α : Type} (le : α → α → Bool) (x : α) :
    ∀ (l : List α), (insSorted le x l).Perm (x :: l) := by
  intro l
  induction l with
  | nil => exact List.Perm.refl _
  | cons y ys ih =>
    by_cases h : le x y
    · simp [insSorted, h]
    · simp only [insSorted, if_neg h]
      exact List.Perm.trans (List.Perm.cons y ih) (List.Perm.swap x y ys)

theorem perm_sortOn {α : Type} (le : α → α → Bool) :
    ∀ (l : List α), (sortOn le l).Perm l := by
  intro l
  induction l with
  | nil => exact List.Perm.refl _
  | cons x xs ih =>
    exact List.Perm.trans (perm_insSorted le x (sortOn le xs)) (List.Perm.cons x ih)

theorem mem_insSorted {α : Type} (le : α → α → Bool) (x : α) (l : List α) (z : α) :
    z ∈ insSorted le x l ↔ z = x ∨ z ∈ l :=
  ⟨fun h => by
     have := (perm_insSorted le x l).mem_iff.mp h
     simpa using this,
   fun h => by
     apply (perm_insSorted le x l).mem_iff.mpr
     simpa using h⟩

theorem pairwise_insSorted {α : Type} (le : α → α → Bool)
    (htot : ∀ a b, le a b = true ∨ le b a = true)
    (htrans : ∀ a b c, le a b = true → le b c = true → le a c = true) :
    ∀ (l : List α) (x : α), l.Pairwise (fun a b => le a b = true) →
      (insSorted le x l).Pairwise (fun a b => le a b = true) := by
  intro l
  induction l with
  | nil => intro x _; simp [insSorted]
  | cons y ys ih =>
    intro x hp
    rcases List.pairwise_cons.mp hp with ⟨hy, hys⟩
    by_cases h : le x y
    · simp only [insSorted, if_pos h]
      refine List.pairwise_cons.mpr ⟨?_, hp⟩
      intro z hz
      rcases List.mem_cons.mp hz with h1 | h1
      · subst h1; exact h
      · exact htrans x y z h (hy z h1)
    · simp only [insSorted, if_neg h]
      refine List.pairwise_cons.mpr ⟨?_, ih x hys⟩
      intro z hz
      rcases (mem_insSorted le x ys z).mp hz with h1 | h1
      · rcases htot x y with h2 | h2
        · exact absurd h2 h
        · rw [h1]
          exact h2
      · exact hy z h1

theorem pairwise_sortOn {α : Type} (le : α → α → Bool)
    (htot : ∀ a b, le a b = true ∨ le b a = true)
    (htrans : ∀ a b c, le a b = true → le b c = true → le a c = true) :
    ∀ (l : List α), (sortOn le l).Pairwise (fun a b => le a b = true) := by
  intro l
  induction l with
  | nil => simp [sortOn]
  | cons x xs ih => exact pairwise_insSorted le htot htrans _ x ih

theorem feedCount_bumpFeed : ∀ (d : List (String × Nat)) (k f : String),
    feedCount (bumpFeed d k) f = feedCount d f + (if k = f then 1 else 0) := by
  intro d
  induction d with
  | nil =>
    intro k f
    by_cases h : k = f <;> simp [bumpFeed, feedCount, List.filter_cons, h]
  | cons p rest ih =>
    intro k f
    rcases p with ⟨a, n⟩
    by_cases hak : a = k
    · subst hak
      simp only [bumpFeed, if_pos rfl]
      by_cases haf : a = f
      · simp [feedCount, List.filter_cons, haf]
        omega
      · simp [feedCount, List.filter_cons, haf]
    · rw [show bumpFeed ((a, n) :: rest) k = (a, n) :: bumpFeed rest k from by
        simp [bumpFeed, hak]]
      by_cases haf : a = f
      · simp [feedCount, List.filter_cons, haf] at ih ⊢
        rw [ih k]
        omega
      · simp [feedCount, List.filter_cons, haf] at ih ⊢
        rw [ih k]

theorem feedCount_foldl_bump : ∀ (l : List (String × MissionData))
    (acc : List (String × Nat)) (f : String),
    feedCount (l.foldl (fun d p => bumpFeed d (p.2.feed_name.getD "Unknown")) acc) f =
      feedCount acc f +
        (l.filter (fun p => p.2.feed_name.getD "Unknown" = f)).length := by
  intro l
  induction l with
  | nil => intro acc f; simp
  | cons p rest ih =>
    intro acc f
    rw [List.foldl_cons, ih, feedCount_bumpFeed]
    by_cases h : p.2.feed_name.getD "Unknown" = f
    · simp [List.filter_cons, h]
      omega
    · simp [List.filter_cons, h]

/-- C8 (amended): `get_statistics` on an empty store returns total 0, an
empty per-feed mapping and absent oldest/newest titles; on any store the
total is the size of the seen set and the per-feed mapping counts records
grouped by feed name (with `"Unknown"` for records lacking one); on a
non-empty store the oldest/newest titles are the first and last titles of
the records arranged in some order sorted by the *raw* `seen_at` string
(lexicographic on code points, missing `seen_at` defaulting to
`"1970-01-01"`) — not by the parsed timestamp, so an unparseable
`seen_at` sorts by its literal text rather than as the epoch start. -/
theorem c8_statistics_amended : ∀ (st : StateManager),
    (get_statistics st).total_missions_seen = st.seen_missions.length ∧
    (∀ f, feedCount (get_statistics st).missions_by_feed f =
      (st.missions_data.filter
        (fun p => p.2.feed_name.getD "Unknown" = f)).length) ∧
    (st.missions_data = [] →
      get_statistics st = ⟨st.seen_missions.length, [], none, none⟩) ∧
    (st.missions_data ≠ [] →
      ∃ l first rest, l = first :: rest ∧
        l.Perm (st.missions_data.map Prod.snd) ∧
        l.Pairwise (fun a b => statLe a b = true) ∧
        (get_statistics st).oldest_mission = first.title ∧
        (get_statistics st).newest_mission = (l.getLastD first).title) := by
  intro st
  have hsort : (sortOn statLe (st.missions_data.map Prod.snd)).Perm
      (st.missions_data.map Prod.snd) := perm_sortOn _ _
  refine ⟨?_, ?_, ?_, ?_⟩
  · rw [get_statistics]
    rcases h : sortOn statLe (st.missions_data.map Prod.snd) with _ | ⟨first, rest⟩ <;> rfl
  · intro f
    rw [get_statistics]
    rcases h : sortOn statLe (st.missions_data.map Prod.snd) with _ | ⟨first, rest⟩ <;>
      · show feedCount (st.missions_data.foldl
          (fun d p => bumpFeed d (p.2.feed_name.getD "Unknown")) []) f = _
        rw [feedCount_foldl_bump]
        simp [feedCount]
  · intro hempty
    rw [get_statistics, hempty]
    rfl
  · intro hne
    rcases h : sortOn statLe (st.missions_data.map Prod.snd) with _ | ⟨first, rest⟩
    · exfalso
      have := hsort.length_eq
      rw [h] at this
      simp at this
      exact hne (List.length_eq_zero.mp this.symm)
    · refine ⟨first :: rest, first, rest, rfl, h ▸ hsort, ?_, ?_, ?_⟩
      · have := pairwise_sortOn statLe
          (fun a b => strLeL_total (statKey a) (statKey b))
          (fun a b c => strLeL_trans (statKey a) (statKey b) (statKey c))
          (st.missions_data.map Prod.snd)
        rw [h] at this
        exact this
      · simp [get_statistics, h]
      · simp [get_statistics, h]
        cases rest with
        | nil => rfl
        | cons r rs => simp [List.getLast?_cons_cons]

/-- C8 (counterexample): in `statStore`, record "a" has the unparseable
`seen_at = "zzz"` and record "b" has `seen_at = "2024-01-01T00:00:00"`.
The spec says an unparseable `observedAt` sorts as the epoch start, which
would make "A" the oldest title; the code sorts by the raw string, where
`"zzz"` comes last, so it reports "B" as oldest. -/
theorem c8_counterexample :
    (get_statistics statStore).oldest_mission = some "B" ∧
    specOldestTitle statStore = some "A" ∧
    (get_statistics statStore).oldest_mission ≠ specOldestTitle statStore :=
  ⟨rfl, rfl, by decide⟩

/-- C8 (witness): the statistics of the three-record `demoStore` expose a
sorted arrangement of its records with the reported oldest and newest
titles at its ends. -/
theorem c8_statistics_amended_witness :
    ∃ l first rest, l = first :: rest ∧
      l.Perm (demoStore.missions_data.map Prod.snd) ∧
      l.Pairwise (fun a b => statLe a b = true) ∧
      (get_statistics demoStore).oldest_mission = first.title ∧
      (get_statistics demoStore).newest_mission = (l.getLastD first).title :=
  (c8_statistics_amended demoStore).2.2.2 (by decide)

theorem searchM_cons_none (m : List Char → Option (List Char)) (c : Char)
    (rest : List Char) (h : searchM m (c :: rest) = none) :
    m (c :: rest) = none ∧ searchM m rest = none := by
  have hs : searchM m (c :: rest) = (m (c :: rest)).orElse (fun _ => searchM m rest) := rfl
  rw [hs] at h
  cases hm : m (c :: rest) with
  | none =>
    rw [hm] at h
    simp [Option.orElse] at h
    exact ⟨rfl, h⟩
  | some r =>
    rw [hm] at h
    simp [Option.orElse] at h

theorem subAll_id_of_searchM_none (m : List Char → Option (List Char)) :
    ∀ (s : List Char), searchM m s = none → ∀ fuel, subAll m fuel s = s := by
  intro s
  induction s with
  | nil => intro _ fuel; cases fuel <;> rfl
  | cons c rest ih =>
    intro h fuel
    rcases searchM_cons_none m c rest h with ⟨hm, hrest⟩
    cases fuel with
    | zero => rfl
    | succ n =>
      show (match m (c :: rest) with
            | some r => subAll m n r
            | none => c :: subAll m n rest) = c :: rest
      rw [hm, ih hrest n]

/-- C4 (amended): when the budget/categories extraction pattern does not
match anywhere in the text, extraction raises no error and returns the
fallback `("Non spécifié", [])`.  `stripMetadata` returns the text with
only whitespace collapsed and ends trimmed *provided additionally* that its
own (different) `Budget…Catégories…` pattern does not match and the text
contains no `Voir ce projet sur Codeur` line — the two removal passes run
regardless of whether the extraction pattern matched. -/
theorem c4_fallback_amended : ∀ (t : String),
    (searchBC t.data = none →
      extract_budget_and_categories t = ("Non spécifié", [])) ∧
    (searchM matchPat1 t.data = none → searchM matchVoir t.data = none →
      extract_main_content t = normalizeWs t) := by
  intro t
  constructor
  · intro h
    simp [extract_budget_and_categories, h]
  · intro h1 h2
    show String.mk (pyTrim (collapseGo false
      (subAll matchVoir _ (subAll matchPat1 t.data.length t.data)))) = _
    rw [subAll_id_of_searchM_none matchPat1 t.data h1,
        subAll_id_of_searchM_none matchVoir t.data h2]
    rfl

/-- C4 (counterexample): two inputs on which the extraction pattern does
not match (so the claim applies), yet `stripMetadata` does not return the
whitespace-collapsed original: `"x Voir ce projet sur Codeur"` loses its
view-link line, and `"Budget : a Catégories : b"` (no `-` separator, so
extraction fails) still has its `Budget…Catégories :` span removed by the
strip pattern, which requires no dash. -/
theorem c4_counterexample :
    (searchBC "x Voir ce projet sur Codeur".data = none ∧
     extract_main_content "x Voir ce projet sur Codeur" = "x" ∧
     normalizeWs "x Voir ce projet sur Codeur" = "x Voir ce projet sur Codeur" ∧
     ("x" : String) ≠ "x Voir ce projet sur Codeur") ∧
    (searchBC "Budget : a Catégories : b".data = none ∧
     extract_main_content "Budget : a Catégories : b" = "b" ∧
     normalizeWs "Budget : a Catégories : b" = "Budget : a Catégories : b" ∧
     ("b" : String) ≠ "Budget : a Catégories : b") :=
  ⟨⟨rfl, rfl, rfl, by decide⟩, ⟨rfl, rfl, rfl, by decide⟩⟩

/-- C4 (witness): on plain text without any marker, extraction falls back
and `stripMetadata` only normalizes whitespace. -/
theorem c4_fallback_amended_witness :
    extract_budget_and_categories "hello world" = ("Non spécifié", []) ∧
    extract_main_content "hello  world" = normalizeWs "hello  world" :=
  ⟨(c4_fallback_amended "hello world").1 rfl,
   (c4_fallback_amended "hello  world").2 rfl rfl⟩

/-! ## C3: strip-metadata lemmas -/

theorem stripLit_cons_none (a : Char) (lit : List Char) (c : Char)
    (rest : List Char) (h : c ≠ a) : stripLit (a :: lit) (c :: rest) = none := by
  have hpre : ((a :: lit).isPrefixOf (c :: rest)) = false := by
    show ((a == c) && lit.isPrefixOf rest) = false
    have : (a == c) = false := by
      simp
      exact fun hh => h hh.symm
    rw [this, Bool.false_and]
  simp [stripLit, hpre]

theorem matchVoir_cons_ne (c : Char) (rest : List Char) (h : c ≠ 'V') :
    matchVoir (c :: rest) = none := by
  have hs : stripLit "Voir ce projet sur Codeur".data (c :: rest) = none :=
    stripLit_cons_none 'V' "oir ce projet sur Codeur".data c rest h
  simp [matchVoir, hs]

theorem subAll_succ (m : List Char → Option (List Char)) (n : Nat) (c : Char)
    (rest : List Char) :
    subAll m (n + 1) (c :: rest) =
      (match m (c :: rest) with
       | some r => subAll m n r
       | none => c :: subAll m n rest) := rfl

theorem stripLit_append (lit s r : List Char) (h : lit.isPrefixOf s = true) :
    stripLit lit (s ++ r) = some (s.drop lit.length ++ r) := by
  have hp : lit <+: s := List.isPrefixOf_iff_prefix.mp h
  have hp2 : lit <+: s ++ r := hp.trans (List.prefix_append s r)
  have hlen : lit.length ≤ s.length := hp.length_le
  rw [stripLit, if_pos (List.isPrefixOf_iff_prefix.mpr hp2),
    List.drop_append_of_le_length hlen]

theorem dropWhile_append_of_ne_nil (p : Char → Bool) :
    ∀ (s r : List Char), s.dropWhile p ≠ [] →
    (s ++ r).dropWhile p = s.dropWhile p ++ r := by
  intro s
  induction s with
  | nil => intro r h; exact absurd rfl h
  | cons c s2 ih =>
    intro r h
    by_cases hp : p c
    · rw [List.cons_append, List.dropWhile_cons_of_pos hp,
        ih r (by rwa [List.dropWhile_cons_of_pos hp] at h),
        List.dropWhile_cons_of_pos hp]
    · rw [List.cons_append,
        List.dropWhile_cons_of_neg (by simpa using hp),
        List.dropWhile_cons_of_neg (by simpa using hp), List.cons_append]

theorem expectColon_append (s r t : List Char)
    (h : s.dropWhile isPyWs = ':' :: t) : expectColon (s ++ r) = some (t ++ r) := by
  have hne : s.dropWhile isPyWs ≠ [] := by rw [h]; simp
  rw [expectColon, dropWhile_append_of_ne_nil _ _ _ hne, h, List.cons_append]
  rfl

theorem scanToCat_skip (c : Char) (rest : List Char) (h1 : c ≠ 'C')
    (h2 : c ≠ '\n') : scanToCat (c :: rest) = scanToCat rest := by
  have hs : stripLit "Catégories".data (c :: rest) = none :=
    stripLit_cons_none 'C' "atégories".data c rest h1
  simp [scanToCat, hs, h2]

theorem scanToCat_hit (c : Char) (rest : List Char) (s2 : List Char)
    (h : (stripLit "Catégories".data (c :: rest)).bind expectColon = some s2) :
    scanToCat (c :: rest) = some s2 := by
  simp only [scanToCat]
  rw [show (do
      let s1 ← stripLit "Catégories".data (c :: rest)
      expectColon s1) = (stripLit "Catégories".data (c :: rest)).bind expectColon
    from rfl, h]
  rfl

theorem someBindStep {α β : Type} (a : α) (f : α → Option β) :
    ((some a : Option α) >>= f) = f a := rfl

theorem subAll_of_match_first (m : List Char → Option (List Char)) (fuel : Nat)
    (s r : List Char) (hm : m s = some r) (hs : s ≠ []) (hf : 0 < fuel)
    (hr : searchM m r = none) : subAll m fuel s = r := by
  cases s with
  | nil => exact absurd rfl hs
  | cons c rest =>
    cases fuel with
    | zero => omega
    | succ n =>
      rw [subAll_succ, hm]
      exact subAll_id_of_searchM_none m r hr n

theorem pyTrim_cons_space (z : List Char) : pyTrim (' ' :: z) = pyTrim z := rfl

theorem collapse_true_false (xs : List Char) :
    pyTrim (collapseGo true xs) = pyTrim (collapseGo false xs) := by
  cases xs with
  | nil => rfl
  | cons c r =>
    by_cases h : isPyWs c
    · rw [show collapseGo true (c :: r) = collapseGo true r from by
          simp [collapseGo, h],
        show collapseGo false (c :: r) = ' ' :: collapseGo true r from by
          simp [collapseGo, h],
        pyTrim_cons_space]
    · rw [show collapseGo true (c :: r) = c :: collapseGo false r from by
          simp [collapseGo, h],
        show collapseGo false (c :: r) = c :: collapseGo false r from by
          simp [collapseGo, h]]

theorem trimRight_cons (c : Char) (z : List Char) :
    trimRight (c :: z) =
      (match trimRight z with
       | [] => if isPyWs c then [] else [c]
       | r => c :: r) := rfl

theorem trimRight_collapse_pad : ∀ (xs : List Char) (b : Bool),
    trimRight (collapseGo b (xs ++ [' '])) = trimRight (collapseGo b xs) := by
  intro xs
  induction xs with
  | nil =>
    intro b
    cases b <;> rfl
  | cons c r ih =>
    intro b
    by_cases h : isPyWs c
    · cases b with
      | false =>
        rw [show collapseGo false ((c :: r) ++ [' ']) =
            ' ' :: collapseGo true (r ++ [' ']) from by simp [collapseGo, h],
          show collapseGo false (c :: r) =
            ' ' :: collapseGo true r from by simp [collapseGo, h],
          trimRight_cons, trimRight_cons, ih true]
      | true =>
        rw [show collapseGo true ((c :: r) ++ [' ']) =
            collapseGo true (r ++ [' ']) from by simp [collapseGo, h],
          show collapseGo true (c :: r) = collapseGo true r from by
            simp [collapseGo, h],
          ih true]
    · rw [show collapseGo b ((c :: r) ++ [' ']) =
          c :: collapseGo false (r ++ [' ']) from by
            cases b <;> simp [collapseGo, h],
        show collapseGo b (c :: r) = c :: collapseGo false r from by
          cases b <;> simp [collapseGo, h],
        trimRight_cons, trimRight_cons, ih false]

theorem pyTrim_collapse_pad : ∀ (xs : List Char) (b : Bool),
    pyTrim (collapseGo b (xs ++ [' '])) = pyTrim (collapseGo b xs) := by
  intro xs
  induction xs with
  | nil =>
    intro b
    cases b <;> rfl
  | cons c r ih =>
    intro b
    by_cases h : isPyWs c
    · cases b with
      | false =>
        rw [show collapseGo false ((c :: r) ++ [' ']) =
            ' ' :: collapseGo true (r ++ [' ']) from by simp [collapseGo, h],
          show collapseGo false (c :: r) =
            ' ' :: collapseGo true r from by simp [collapseGo, h],
          pyTrim_cons_space, pyTrim_cons_space, ih true]
      | true =>
        rw [show collapseGo true ((c :: r) ++ [' ']) =
            collapseGo true (r ++ [' ']) from by simp [collapseGo, h],
          show collapseGo true (c :: r) = collapseGo true r from by
            simp [collapseGo, h],
          ih true]
    · rw [show collapseGo b ((c :: r) ++ [' ']) =
          c :: collapseGo false (r ++ [' ']) from by
            cases b <;> simp [collapseGo, h],
        show collapseGo b (c :: r) = c :: collapseGo false r from by
          cases b <;> simp [collapseGo, h]]
      rw [show pyTrim (c :: collapseGo false (r ++ [' '])) =
          trimRight (c :: collapseGo false (r ++ [' '])) from by
            simp [pyTrim, List.dropWhile_cons_of_neg (by simpa using h)],
        show pyTrim (c :: collapseGo false r) =
          trimRight (c :: collapseGo false r) from by
            simp [pyTrim, List.dropWhile_cons_of_neg (by simpa using h)],
        trimRight_cons, trimRight_cons, trimRight_collapse_pad r false]

/-- Regression facts pinning the `\s*` backtracking before the lazy
category capture: on `"Budget : a - Catégories : "` the pattern matches
with the group-2 `\s*` yielding its whitespace to the lazy group (captured
text `" "`, hence category list `[""]`), and likewise before an uppercase
boundary on the next line. -/
theorem extract_backtrack_sample1 :
    extract_budget_and_categories "Budget : a - Catégories : " = ("a", [""]) := rfl

theorem extract_backtrack_sample2 :
    extract_budget_and_categories "Budget : x - Catégories : Dx\ny" =
      ("x", [""]) := rfl

theorem isPrefixOf_cons_false (a : Char) (p : List Char) (c : Char)
    (t : List Char) (h : a ≠ c) : (a :: p).isPrefixOf (c :: t) = false := by
  show ((a == c) && p.isPrefixOf t) = false
  have hac : (a == c) = false := by
    simp
    exact h
  rw [hac, Bool.false_and]

theorem isPrefixOf_cons_false' (p : List Char) (c : Char) (t : List Char)
    (hne : p ≠ []) (h : p.head? ≠ some c) : p.isPrefixOf (c :: t) = false := by
  cases p with
  | nil => exact absurd rfl hne
  | cons a q =>
    apply isPrefixOf_cons_false
    intro hac
    exact h (by rw [hac]; rfl)

theorem occurs_eq_false_iff (pat : List Char) (hpat : pat ≠ []) :
    ∀ (s : List Char), occurs pat s = false ↔
      ∀ i, pat.isPrefixOf (s.drop i) = false := by
  intro s
  induction s with
  | nil =>
    cases pat with
    | nil => exact absurd rfl hpat
    | cons a p =>
      constructor
      · intro _ i
        rw [List.drop_nil]
        rfl
      · intro _
        rfl
  | cons c rest ih =>
    constructor
    · intro h i
      have h2 : pat.isPrefixOf (c :: rest) = false ∧ occurs pat rest = false :=
        Bool.or_eq_false_iff.mp h
      cases i with
      | zero => rw [List.drop_zero]; exact h2.1
      | succ j =>
        rw [List.drop_succ_cons]
        exact (ih.mp h2.2) j
    · intro h
      show (pat.isPrefixOf (c :: rest) || occurs pat rest) = false
      have h0 := h 0
      rw [List.drop_zero] at h0
      rw [h0, ih.mpr (fun j => by
        have := h (j + 1)
        rwa [List.drop_succ_cons] at this)]
      rfl

theorem prefix_append_cases (pat a b : List Char)
    (h : pat.isPrefixOf (a ++ b) = true) :
    (pat.length ≤ a.length ∧ pat.isPrefixOf a = true) ∨
    (a.length < pat.length ∧ pat.take a.length = a ∧
      (pat.drop a.length).isPrefixOf b = true) := by
  have hp : pat <+: a ++ b := List.isPrefixOf_iff_prefix.mp h
  have heq : pat = (a ++ b).take pat.length := List.prefix_iff_eq_take.mp hp
  by_cases hl : pat.length ≤ a.length
  · left
    refine ⟨hl, List.isPrefixOf_iff_prefix.mpr ?_⟩
    rw [List.take_append_of_le_length hl] at heq
    rw [heq]
    exact List.take_prefix _ _
  · right
    push_neg at hl
    rw [List.take_append_eq_append_take,
      List.take_of_length_le (Nat.le_of_lt hl)] at heq
    refine ⟨hl, ?_, ?_⟩
    · rw [heq, List.take_left]
    · rw [heq, List.drop_left]
      exact List.isPrefixOf_iff_prefix.mpr (List.take_prefix _ _)

theorem not_prefix_append (pat xs ys : List Char)
    (hxs : ∀ i, pat.isPrefixOf (xs.drop i) = false)
    (hys : ∀ i, pat.isPrefixOf (ys.drop i) = false)
    (hstrad : ∀ m, 0 < m → m < pat.length → (pat.drop m).isPrefixOf ys = false) :
    ∀ i, pat.isPrefixOf ((xs ++ ys).drop i) = false := by
  intro i
  by_cases hi : xs.length ≤ i
  · rw [List.drop_append_eq_append_drop, List.drop_eq_nil_of_le hi,
      List.nil_append]
    exact hys (i - xs.length)
  · push_neg at hi
    rw [List.drop_append_eq_append_drop, Nat.sub_eq_zero_of_le (Nat.le_of_lt hi),
      List.drop_zero]
    cases hp : pat.isPrefixOf (xs.drop i ++ ys) with
    | false => rfl
    | true =>
      exfalso
      rcases prefix_append_cases pat (xs.drop i) ys hp with ⟨_, hpre⟩ | ⟨hl, _, hdrop⟩
      · rw [hxs i] at hpre
        exact Bool.false_ne_true hpre
      · have hm : (xs.drop i).length = xs.length - i := List.length_drop i xs
        have h0 : 0 < (xs.drop i).length := by rw [hm]; omega
        rw [hstrad (xs.drop i).length h0 hl] at hdrop
        exact Bool.false_ne_true hdrop

theorem matchPat1_none_of_no_lead (s : List Char)
    (h : ("Budget".data).isPrefixOf s = false) : matchPat1 s = none := by
  have hs : stripLit "Budget".data s = none := by simp [stripLit, h]
  simp [matchPat1, hs]

theorem matchVoir_none_of_no_lead (s : List Char)
    (h : ("Voir ce projet sur Codeur".data).isPrefixOf s = false) :
    matchVoir s = none := by
  have hs : stripLit "Voir ce projet sur Codeur".data s = none := by
    simp [stripLit, h]
  simp [matchVoir, hs]

theorem searchM_matchPat1_none2 : ∀ (s : List Char),
    (∀ i, ("Budget".data).isPrefixOf (s.drop i) = false) →
    searchM matchPat1 s = none := by
  intro s
  induction s with
  | nil => intro _; rfl
  | cons c rest ih =>
    intro h
    have h0 := h 0
    rw [List.drop_zero] at h0
    show (matchPat1 (c :: rest)).orElse (fun _ => searchM matchPat1 rest) = none
    rw [matchPat1_none_of_no_lead _ h0, ih (fun i => by
      have := h (i + 1)
      rwa [List.drop_succ_cons] at this)]
    rfl

theorem vl_no_border : ∀ (m : Nat), m < 25 → 0 < m →
    ((("Voir ce projet sur Codeur".data).drop m).isPrefixOf
      ("Voir ce projet sur Codeur".data)) = false := by decide

theorem cat_head_ne_space : ∀ (m : Nat), m < 10 → 0 < m →
    ¬ ((("Catégories".data).drop m).head? = some ' ') := by decide

theorem cat_no_straddle (m : Nat) (hm : m < 10) (h0 : 0 < m) (y : List Char) :
    (("Catégories".data).drop m).isPrefixOf (' ' :: y) = false := by
  apply isPrefixOf_cons_false'
  · intro hnil
    have hlen := congrArg List.length hnil
    have h10 : ("Catégories".data).length = 10 := rfl
    simp [List.length_drop, h10] at hlen
    omega
  · exact cat_head_ne_space m hm h0

theorem scanToCat_skip2 (c : Char) (rest : List Char)
    (h1 : ("Catégories".data).isPrefixOf (c :: rest) = false) (h2 : c ≠ '\n') :
    scanToCat (c :: rest) = scanToCat rest := by
  have hs : stripLit "Catégories".data (c :: rest) = none := by
    simp [stripLit, h1]
  simp [scanToCat, hs, h2]

theorem scanToCat_dashCat : ∀ (x : List Char),
    scanToCat (" - Catégories : ".data ++ x) = some (' ' :: x) := by
  intro x
  rw [show " - Catégories : ".data ++ x =
    ' ' :: '-' :: ' ' :: ("Catégories : ".data ++ x) from rfl]
  rw [scanToCat_skip ' ' _ (by decide) (by decide)]
  rw [scanToCat_skip '-' _ (by decide) (by decide)]
  rw [scanToCat_skip ' ' _ (by decide) (by decide)]
  rw [show ("Catégories : ".data ++ x) = 'C' :: ("atégories : ".data ++ x) from rfl]
  apply scanToCat_hit
  rw [show 'C' :: ("atégories : ".data ++ x) = "Catégories : ".data ++ x from rfl]
  rw [stripLit_append "Catégories".data "Catégories : ".data x (by decide)]
  rw [show ("Catégories : ".data).drop ("Catégories".data).length = " : ".data from rfl]
  show expectColon (" : ".data ++ x) = some (' ' :: x)
  rw [expectColon_append " : ".data x [' '] (by decide)]
  rfl

theorem scanToCat_generic : ∀ (bs x : List Char),
    (∀ c ∈ bs, c ≠ '\n') →
    (∀ i, ("Catégories".data).isPrefixOf (bs.drop i) = false) →
    scanToCat (bs ++ (" - Catégories : ".data ++ x)) = some (' ' :: x) := by
  intro bs
  induction bs with
  | nil =>
    intro x _ _
    rw [List.nil_append]
    exact scanToCat_dashCat x
  | cons c bs2 ih =>
    intro x hnl hno
    have h1 : ("Catégories".data).isPrefixOf
        (c :: (bs2 ++ (" - Catégories : ".data ++ x))) = false := by
      rw [show c :: (bs2 ++ (" - Catégories : ".data ++ x)) =
        (c :: bs2) ++ (" - Catégories : ".data ++ x) from rfl]
      cases hp : ("Catégories".data).isPrefixOf
          ((c :: bs2) ++ (" - Catégories : ".data ++ x)) with
      | false => rfl
      | true =>
        exfalso
        rcases prefix_append_cases _ _ _ hp with ⟨_, hpre⟩ | ⟨hl, _, hdrop⟩
        · have h0 := hno 0
          rw [List.drop_zero] at h0
          rw [h0] at hpre
          exact Bool.false_ne_true hpre
        · have h10 : ("Catégories".data).length = 10 := rfl
          rw [show " - Catégories : ".data ++ x =
            ' ' :: ("- Catégories : ".data ++ x) from rfl] at hdrop
          rw [cat_no_straddle (c :: bs2).length (by rw [h10] at hl; exact hl)
            (by simp) ("- Catégories : ".data ++ x)] at hdrop
          exact Bool.false_ne_true hdrop
    rw [List.cons_append, scanToCat_skip2 c _ h1 (hnl c (by simp))]
    exact ih x (fun z hz => hnl z (by simp [hz])) (fun i => by
      have := hno (i + 1)
      rwa [List.drop_succ_cons] at this)

theorem matchPat1_generic (b x : List Char)
    (hnl : ∀ c ∈ b, c ≠ '\n')
    (hno : ∀ i, ("Catégories".data).isPrefixOf (b.drop i) = false) :
    matchPat1 ("Budget : ".data ++ (b ++ (" - Catégories : ".data ++ x))) =
      some (' ' :: x) := by
  rw [matchPat1]
  rw [show "Budget : ".data ++ (b ++ (" - Catégories : ".data ++ x)) =
    "Budget".data ++ (" : ".data ++ (b ++ (" - Catégories : ".data ++ x)))
    from rfl]
  rw [stripLit_append "Budget".data "Budget".data _ (by decide)]
  rw [show ("Budget".data).drop ("Budget".data).length = ([] : List Char) from rfl,
    List.nil_append]
  rw [someBindStep]
  rw [expectColon_append " : ".data (b ++ (" - Catégories : ".data ++ x)) [' ']
    (by decide)]
  rw [someBindStep]
  rw [show [' '] ++ (b ++ (" - Catégories : ".data ++ x)) =
    (' ' :: b) ++ (" - Catégories : ".data ++ x) from rfl]
  rw [scanToCat_generic (' ' :: b) x
    (by
      intro z hz
      rcases List.mem_cons.mp hz with h | h
      · subst h; decide
      · exact hnl z h)
    (by
      intro i
      cases i with
      | zero =>
        rw [List.drop_zero]
        exact isPrefixOf_cons_false 'C' ("atégories".data) ' ' b (by decide)
      | succ j =>
        rw [List.drop_succ_cons]
        exact hno j)]
  rfl

theorem subVoir_through2 : ∀ (cs : List Char) (fuel : Nat),
    (∀ i, ("Voir ce projet sur Codeur".data).isPrefixOf (cs.drop i) = false) →
    cs.length + 25 ≤ fuel →
    subAll matchVoir fuel (cs ++ "Voir ce projet sur Codeur".data) = cs := by
  intro cs
  induction cs with
  | nil =>
    intro fuel _ hf
    cases fuel with
    | zero => omega
    | succ n =>
      rw [List.nil_append,
        show "Voir ce projet sur Codeur".data =
          'V' :: "oir ce projet sur Codeur".data from rfl,
        subAll_succ,
        show matchVoir ('V' :: "oir ce projet sur Codeur".data) = some [] from rfl]
      cases n <;> rfl
  | cons c cs2 ih =>
    intro fuel hno hf
    cases fuel with
    | zero => simp at hf
    | succ n =>
      have hm : matchVoir (c :: (cs2 ++ "Voir ce projet sur Codeur".data)) = none := by
        apply matchVoir_none_of_no_lead
        rw [show c :: (cs2 ++ "Voir ce projet sur Codeur".data) =
          (c :: cs2) ++ "Voir ce projet sur Codeur".data from rfl]
        cases hp : ("Voir ce projet sur Codeur".data).isPrefixOf
            ((c :: cs2) ++ "Voir ce projet sur Codeur".data) with
        | false => rfl
        | true =>
          exfalso
          rcases prefix_append_cases _ _ _ hp with ⟨_, hpre⟩ | ⟨hl, _, hdrop⟩
          · have h0 := hno 0
            rw [List.drop_zero] at h0
            rw [h0] at hpre
            exact Bool.false_ne_true hpre
          · have h25 : ("Voir ce projet sur Codeur".data).length = 25 := rfl
            rw [vl_no_border (c :: cs2).length (by rw [h25] at hl; exact hl)
              (by simp)] at hdrop
            exact Bool.false_ne_true hdrop
      rw [List.cons_append, subAll_succ, hm]
      rw [ih n (fun i => by
        have := hno (i + 1)
        rwa [List.drop_succ_cons] at this) (by
        simp only [List.length_cons] at hf
        omega)]

/-- C3 (amended): for any budget text `b` containing no newline and no
occurrence of the string `Catégories`, and any category-list text `cats`
containing no occurrence of `Budget` nor of `Voir ce projet sur Codeur`,
`_extract_main_content` applied to
`"Budget : " ++ b ++ " - Catégories : " ++ cats ++ " Voir ce projet sur Codeur"`
removes the `Budget…Catégories :` span only up through the `Catégories :`
marker — leaving the category-list text in place — removes the
`Voir ce projet sur Codeur` tail to the end of its line, and then collapses
whitespace and trims: the result is exactly the whitespace-normalized
category-list text, not the text with the category list removed. -/
theorem c3_strip_amended : ∀ (b cats : String),
    (∀ c ∈ b.data, c ≠ '\n') →
    occurs "Catégories".data b.data = false →
    occurs "Budget".data cats.data = false →
    occurs "Voir ce projet sur Codeur".data cats.data = false →
    extract_main_content ("Budget : " ++ b ++ " - Catégories : " ++ cats ++
      " Voir ce projet sur Codeur") = normalizeWs cats := by
  intro b cats hnl hCat hBud hVoir
  have hCat2 : ∀ i, ("Catégories".data).isPrefixOf (b.data.drop i) = false :=
    (occurs_eq_false_iff "Catégories".data (by decide) b.data).mp hCat
  have hBud2 : ∀ i, ("Budget".data).isPrefixOf (cats.data.drop i) = false :=
    (occurs_eq_false_iff "Budget".data (by decide) cats.data).mp hBud
  have hVoir2 : ∀ i,
      ("Voir ce projet sur Codeur".data).isPrefixOf (cats.data.drop i) = false :=
    (occurs_eq_false_iff "Voir ce projet sur Codeur".data (by decide) cats.data).mp
      hVoir
  have hdata : ("Budget : " ++ b ++ " - Catégories : " ++ cats ++
      " Voir ce projet sur Codeur").data =
      "Budget : ".data ++ (b.data ++ (" - Catégories : ".data ++
        (cats.data ++ " Voir ce projet sur Codeur".data))) := by
    show ((("Budget : ".data ++ b.data) ++ " - Catégories : ".data) ++ cats.data) ++
      " Voir ce projet sur Codeur".data = _
    simp [List.append_assoc]
  have hmatch := matchPat1_generic b.data
    (cats.data ++ " Voir ce projet sur Codeur".data) hnl hCat2
  have hBudStrad : ∀ m, m < 6 → 0 < m →
      (("Budget".data).drop m).isPrefixOf (" Voir ce projet sur Codeur".data) =
        false := by decide
  have hrest0 : ∀ i, ("Budget".data).isPrefixOf
      (((' ' :: cats.data) ++ " Voir ce projet sur Codeur".data).drop i) = false := by
    apply not_prefix_append
    · intro i
      cases i with
      | zero =>
        rw [List.drop_zero]
        exact isPrefixOf_cons_false 'B' ("udget".data) ' ' cats.data (by decide)
      | succ j =>
        rw [List.drop_succ_cons]
        exact hBud2 j
    · exact (occurs_eq_false_iff "Budget".data (by decide)
        (" Voir ce projet sur Codeur".data)).mp (by decide)
    · intro m h0 hm
      exact hBudStrad m hm h0
  have hrest : searchM matchPat1
      (' ' :: (cats.data ++ " Voir ce projet sur Codeur".data)) = none := by
    apply searchM_matchPat1_none2
    intro i
    rw [show ' ' :: (cats.data ++ " Voir ce projet sur Codeur".data) =
      (' ' :: cats.data) ++ " Voir ce projet sur Codeur".data from rfl]
    exact hrest0 i
  have hne : "Budget : ".data ++ (b.data ++ (" - Catégories : ".data ++
      (cats.data ++ " Voir ce projet sur Codeur".data))) ≠ [] := by
    intro h
    have := congrArg List.length h
    simp [List.length_append] at this
  have hpos : 0 < ("Budget : ".data ++ (b.data ++ (" - Catégories : ".data ++
      (cats.data ++ " Voir ce projet sur Codeur".data)))).length := by
    rw [List.length_append]
    have h9 : ("Budget : ".data).length = 9 := rfl
    omega
  have h1 : subAll matchPat1
      ("Budget : ".data ++ (b.data ++ (" - Catégories : ".data ++
        (cats.data ++ " Voir ce projet sur Codeur".data)))).length
      ("Budget : ".data ++ (b.data ++ (" - Catégories : ".data ++
        (cats.data ++ " Voir ce projet sur Codeur".data)))) =
      ' ' :: (cats.data ++ " Voir ce projet sur Codeur".data) :=
    subAll_of_match_first _ _ _ _ hmatch hne hpos hrest
  show String.mk (pyTrim (collapseGo false
    (subAll matchVoir
      (subAll matchPat1
        ("Budget : " ++ b ++ " - Catégories : " ++ cats ++
          " Voir ce projet sur Codeur").data.length
        ("Budget : " ++ b ++ " - Catégories : " ++ cats ++
          " Voir ce projet sur Codeur").data).length
      (subAll matchPat1
        ("Budget : " ++ b ++ " - Catégories : " ++ cats ++
          " Voir ce projet sur Codeur").data.length
        ("Budget : " ++ b ++ " - Catégories : " ++ cats ++
          " Voir ce projet sur Codeur").data)))) = normalizeWs cats
  rw [hdata, h1]
  rw [List.length_cons, subAll_succ, matchVoir_cons_ne ' ' _ (by decide)]
  rw [show " Voir ce projet sur Codeur".data =
    ' ' :: "Voir ce projet sur Codeur".data from rfl]
  rw [List.append_cons]
  have hcs : ∀ i, ("Voir ce projet sur Codeur".data).isPrefixOf
      ((cats.data ++ [' ']).drop i) = false := by
    apply not_prefix_append
    · exact hVoir2
    · exact (occurs_eq_false_iff "Voir ce projet sur Codeur".data (by decide)
        [' ']).mp (by decide)
    · intro m h0 hm
      exact (by decide : ∀ m, m < 25 → 0 < m →
        ((("Voir ce projet sur Codeur".data).drop m).isPrefixOf [' ']) = false)
        m hm h0
  rw [subVoir_through2 (cats.data ++ [' '])
    ((cats.data ++ [' ']) ++ "Voir ce projet sur Codeur".data).length
    hcs
    (by
      have h25 : ("Voir ce projet sur Codeur".data).length = 25 := rfl
      simp only [List.length_append, h25]
      omega)]
  show String.mk (pyTrim (collapseGo false (' ' :: (cats.data ++ [' '])))) =
    String.mk (pyTrim (collapseGo false cats.data))
  congr 1
  rw [show collapseGo false (' ' :: (cats.data ++ [' '])) =
      ' ' :: collapseGo true (cats.data ++ [' ']) from rfl,
    pyTrim_cons_space, collapse_true_false, pyTrim_collapse_pad]

/-- C3 (counterexample): on the sample description, the spec claims the
entire `Budget : ... Catégories : ...` span *including the category-list
text* is removed (which would leave nothing of it), but the code's lazy
`.*?\n?` tail matches the empty string, so the match ends right after
`Catégories :` and the category-list text survives — indeed it is the
whole output. -/
theorem c3_counterexample :
    extract_main_content sampleDescr = "Développement spécifique, API" ∧
    ("Développement spécifique".data).IsInfix
      (extract_main_content sampleDescr).data ∧
    extract_main_content sampleDescr ≠ "" :=
  ⟨rfl, by decide, by decide⟩

/-- C3 (witness): the amended statement instantiated at the sample budget
and category-list texts. -/
theorem c3_strip_amended_witness :
    extract_main_content ("Budget : " ++ "Moins de 500 €" ++ " - Catégories : " ++
      "Développement spécifique, API" ++ " Voir ce projet sur Codeur") =
      normalizeWs "Développement spécifique, API" :=
  c3_strip_amended "Moins de 500 €" "Développement spécifique, API"
    (by decide) (by decide) (by decide) (by decide)
